import Mathlib

/-!
# Verification of the 1688-product-scraper extraction pipeline

A shallow embedding, in Lean 4, of the scraping pipeline implemented in
`scraper_1688.py` (class `Product1688Scraper` and the module-level entry point
`scrape_1688_product`), together with proofs and refutations of the frozen
specification claims.

Modelling conventions:

* Python strings are modelled as `List Char` (`Str` below); Python `len` is
  `List.length` (both count Unicode code points).
* A parsed HTML document (`BeautifulSoup` object) is modelled by the structure
  `Doc`, whose fields record exactly the query results the scraper reads
  (per-selector element texts, the `<title>` text, parsed JSON-LD payloads,
  per-script regex capture lists, table rows, `dt`/`dd` pairs, free-text
  key-value captures).  The CSS query engine and the regex scans over raw
  script text are environmental (library) code; their outputs are the model's
  inputs, and every filter or transformation the scraper itself applies to
  those outputs is translated faithfully below.
* The HTTP layer (`get_page_content`) is an oracle `World.fetch`; exceptions
  that Python can raise inside the two `try`/`except` frames of the
  orchestrator are oracles `World.assembleExc` / `World.outerExc`.
* Regular expressions appearing in the Python source are hand-compiled to
  executable scanners; each scanner's doc comment states the regex and the
  derivation.  Python's Unicode `\d` / `\s` classes are modelled by
  `Char.isDigit` and `isPySpace` (the common whitespace code points); `.lower()`
  by ASCII `Char.toLower`.  These coincide with Python on every character
  relevant to the scraper's literal patterns.
* JSON values are modelled by `Json` with string leaves, arrays and objects;
  non-string leaves (numbers, booleans, null) are not represented, because the
  scraper only meaningfully consumes string leaves (where Python would pass a
  non-string value through, the restriction is noted at the definition).
-/

abbrev Str := List Char

/-- Prefix test on `Str`, casing on the needle first so that it reduces
definitionally when the haystack has a concrete head and a symbolic tail. -/
def isPre : Str → Str → Bool
  | [], _ => true
  | _ :: _, [] => false
  | a :: as, b :: bs => (a == b) && isPre as bs

/-- Suffix test on `Str` (via `isPre` on the reversed lists). -/
def isSuf (needle l : Str) : Bool := isPre needle.reverse l.reverse

/-- Python's substring test `needle in hay`. -/
def containsSub (needle : Str) : Str → Bool
  | [] => needle.isEmpty
  | c :: rest => isPre needle (c :: rest) || containsSub needle rest

/-- Split a string at the first occurrence of `needle`, returning the part
before and the part after it; `none` when `needle` does not occur. -/
def splitFirstSub (needle : Str) : Str → Option (Str × Str)
  | [] => none
  | c :: rest =>
    if isPre needle (c :: rest) then some ([], (c :: rest).drop needle.length)
    else
      match splitFirstSub needle rest with
      | some p => some (c :: p.1, p.2)
      | none => none

/-- The whitespace code points recognised by Python's `str.strip()` and by the
regex class `\s` on `str` patterns (ASCII whitespace, NEL, NBSP and the
common Unicode space separators).  Every character the scraper's literal
patterns can collide with is covered. -/
def isPySpace (c : Char) : Bool :=
  c == ' ' || c == '\t' || c == '\n' || c == '\r' || c.val == 11 || c.val == 12 ||
  c.val == 0x1c || c.val == 0x1d || c.val == 0x1e || c.val == 0x1f ||
  c.val == 0x85 || c.val == 0xa0 || c.val == 0x1680 ||
  (0x2000 ≤ c.val && c.val ≤ 0x200a) ||
  c.val == 0x2028 || c.val == 0x2029 || c.val == 0x202f || c.val == 0x205f || c.val == 0x3000

/-- Python `str.strip()`: drop leading and trailing whitespace. -/
def pyStrip (l : Str) : Str :=
  ((l.dropWhile isPySpace).reverse.dropWhile isPySpace).reverse

/-- Python `str.lower()` restricted to ASCII case folding (sufficient for the
scraper's ASCII keyword checks). -/
def pyLower (l : Str) : Str := l.map Char.toLower

/-- Head-is-a-decimal-digit test. -/
def headDigit : Str → Bool
  | [] => false
  | c :: _ => c.isDigit

/-- Worker for `replaceSub`: `skip` counts characters of a just-matched needle
that still have to be consumed without scanning. -/
def repAux (needle repl : Str) : Nat → Str → Str
  | _, [] => []
  | 0, c :: rest =>
    if isPre needle (c :: rest) then repl ++ repAux needle repl (needle.length - 1) rest
    else c :: repAux needle repl 0 rest
  | k + 1, _ :: rest => repAux needle repl k rest

/-- Python `str.replace(needle, repl)`: replace every (non-overlapping,
left-to-right) occurrence. -/
def replaceSub (needle repl l : Str) : Str :=
  if needle.isEmpty then l else repAux needle repl 0 l

/-- First-occurrence-preserving deduplication worker
(Python `list(dict.fromkeys(xs))`). -/
def dedupFirstAux (seen : List Str) : List Str → List Str
  | [] => []
  | x :: xs =>
    if x ∈ seen then dedupFirstAux seen xs else x :: dedupFirstAux (x :: seen) xs

/-- Python `list(dict.fromkeys(xs))`: deduplicate keeping first occurrences. -/
def dedupFirst (l : List Str) : List Str := dedupFirstAux [] l

/-- Decimal rendering of a natural number (Python `str(n)` / f-string use). -/
def natToStr (n : Nat) : Str := (Nat.repr n).data

/-- Association-list update with Python `dict` semantics: an existing key keeps
its position and gets the new value; a new key is appended. -/
def specInsert (m : List (Str × Str)) (k v : Str) : List (Str × Str) :=
  if m.any (fun p => p.1 == k) then m.map (fun p => if p.1 == k then (k, v) else p)
  else m ++ [(k, v)]

/-! ## Data model: JSON values and parsed documents -/

/-- JSON values with string leaves.  Numbers, booleans and null are not
represented: the scraper's JSON walks only consume string leaves (see the
individual definitions for the behaviour Python exhibits on other leaves). -/
inductive Json where
  | str : Str → Json
  | arr : List Json → Json
  | obj : List (Str × Json) → Json

/-- The data the scraper reads out of one `<script>` element whose `.string`
is non-`None`.  Each field holds the capture lists of the regex scans the
corresponding extraction method runs over the raw script text (the regex
engine being environmental, its output is model input):

* `titleMatches`: captures of the six `title`/`productName`/`name` patterns of
  `extract_title`, one list per pattern, in pattern order.
* `priceMatches`: captures of the price pattern of `extract_price`
  (a capture contains the mandatory `[\d,]+` run, hence is non-empty for real
  documents; theorems needing this state it as a hypothesis).
* `imageMatches`: matches of the image-URL pattern of `extract_images`
  (matches of that pattern start with `http`; stated as a hypothesis where
  needed).
* `descMatches`: captures of the six description patterns of
  `extract_description`, one list per pattern, in pattern order.
* `specArrays`: the arrays of `extract_specifications` obtained from the
  `props`/`attributes`/`params`/`specifications` patterns whose bracketed
  body `json.loads` parsed successfully, in pattern-then-match order
  (a parse failure is skipped by the Python code, i.e. simply absent here).
* `specSimpleMatches`: capture pairs of the two simple `name`/`value` and
  `key`/`value` patterns of `extract_specifications`, in pattern order. -/
structure Script where
  titleMatches : List (List Str)
  priceMatches : List Str
  imageMatches : List Str
  descMatches : List (List Str)
  specArrays : List (List Json)
  specSimpleMatches : List (Str × Str)

/-- An `<img>` element as read by `extract_images`: its `src`, `data-src` and
`data-original` attributes (`none` = attribute absent). -/
structure ImgTag where
  src : Option Str
  dataSrc : Option Str
  dataOriginal : Option Str

/-- A parsed HTML document, abstracted by the query results the scraper reads.

* `titleSelectorTexts`: for each of the title selectors of `extract_title`, in
  selector order, the `get_text(strip=True)` of the matched elements.
* `titleTag`: `get_text()` of the `<title>` element, if present.
* `jsonLd`: the successfully parsed payloads of the
  `<script type="application/ld+json">` elements, in document order
  (`json.loads` failures are skipped by the Python code, hence absent).
* `scripts`: the scripts with non-`None` `.string`, in document order.
* `priceSelectorTexts`: for each of the eight price selectors of
  `extract_price`, in order, `get_text(strip=True)` of the first matched
  element (`select_one`), if any.
* `imgSelectorImgs`: for each image selector of `extract_images`, in order,
  the matched `<img>` elements.
* `descSelectorTexts`: per description selector of `extract_description`, in
  order, the `get_text(strip=True)` of the matched elements.
* `metaDescription`: the `content` attribute of `<meta name="description">`.
* `featureSelectorTexts`: per feature selector of `extract_product_features`,
  in order, the `get_text(strip=True)` of the matched elements.
* `specTables`: the tables matched by the twelve table selectors of
  `extract_specifications` (concatenated in selector order, which the
  accumulating fold makes equivalent to the nested Python loops); a table is
  its list of rows, a row the list of `get_text(strip=True)` of its
  `td`/`th` cells.
* `specDls`: per `dl` element matched by the five `dl` selectors, in order,
  the text of its first `dt` and first `dd` (if present).
* `pageKvMatches`: capture pairs of the two free-text key-value patterns of
  `extract_specifications` run over `soup.get_text()`, in pattern order. -/
structure Doc where
  titleSelectorTexts : List (List Str)
  titleTag : Option Str
  jsonLd : List Json
  scripts : List Script
  priceSelectorTexts : List (Option Str)
  imgSelectorImgs : List (List ImgTag)
  descSelectorTexts : List (List Str)
  metaDescription : Option Str
  featureSelectorTexts : List (List Str)
  specTables : List (List (List Str))
  specDls : List (Option Str × Option Str)
  pageKvMatches : List (Str × Str)

/-- The document with no readable content at all. -/
def emptyDoc : Doc :=
  { titleSelectorTexts := [], titleTag := none, jsonLd := [], scripts := [],
    priceSelectorTexts := [], imgSelectorImgs := [], descSelectorTexts := [],
    metaDescription := none, featureSelectorTexts := [], specTables := [],
    specDls := [], pageKvMatches := [] }

/-! ## URL validation and product-id extraction -/

/-- Tail check shared by the first two URL patterns: `\d+\.html` after the
literal prefix — a non-empty digit run followed by `.html` (as `\d` cannot
match `.`, the greedy `\d+` never backtracks, so the maximal run is the
match). -/
def digitsHtml (r : Str) : Bool :=
  let ds := r.takeWhile Char.isDigit
  !ds.isEmpty && isPre ".html".data (r.drop ds.length)

/-- Embeds `re.match(r'https?://detail\.1688\.com/offer/\d+\.html', url)`:
a prefix match (anything may follow the matched part). -/
def matchesDesktopPat (u : Str) : Bool :=
  if isPre "http://detail.1688.com/offer/".data u then
    digitsHtml (u.drop 29)
  else if isPre "https://detail.1688.com/offer/".data u then
    digitsHtml (u.drop 30)
  else false

/-- Embeds `re.match(r'https?://m\.1688\.com/offer/\d+\.html', url)`. -/
def matchesMobilePat (u : Str) : Bool :=
  if isPre "http://m.1688.com/offer/".data u then
    digitsHtml (u.drop 24)
  else if isPre "https://m.1688.com/offer/".data u then
    digitsHtml (u.drop 25)
  else false

/-- Embeds `re.match(r'https?://.*\.1688\.com/.*offer.*', url)`.  Since `.` does not
match a newline and `re.match` only needs a prefix match, this holds iff, on
the first line of the URL, the scheme is followed by an occurrence of
`.1688.com/` with an occurrence of `offer` somewhere after it (if any
occurrence pair works, the first `.1688.com/` occurrence also works, so
searching the first occurrence is complete). -/
def matchesGenericPat (u : Str) : Bool :=
  let afterScheme : Option Str :=
    if isPre "https://".data u then some (u.drop 8)
    else if isPre "http://".data u then some (u.drop 7)
    else none
  match afterScheme with
  | none => false
  | some r =>
    let line := r.takeWhile (fun c => !(c == '\n'))
    match splitFirstSub ".1688.com/".data line with
    | some p => containsSub "offer".data p.2
    | none => false

/-- Embeds `Product1688Scraper.validate_url`: the URL must match one of the three
patterns. -/
def validate_url (u : Str) : Bool :=
  matchesDesktopPat u || matchesMobilePat u || matchesGenericPat u

/-- Embeds `Product1688Scraper.extract_product_id`:
`re.search(r'offer/(\d+)', url)` — scan for the leftmost position where
`offer/` is followed by at least one digit; the capture is the maximal digit
run there (greedy `\d+` with nothing after it). -/
def extract_product_id : Str → Option Str
  | [] => none
  | c :: rest =>
    if isPre "offer/".data (c :: rest) && headDigit ((c :: rest).drop 6) then
      some (((c :: rest).drop 6).takeWhile Char.isDigit)
    else extract_product_id rest

/-- The host part of a URL, per `urllib.parse.urlparse().netloc`: the segment
between `://` and the next `/`, `?` or `#`.  (URLs with userinfo or an
explicit port are not in scope; none occur in this development.) -/
def urlHost (u : Str) : Str :=
  match splitFirstSub "://".data u with
  | some p => p.2.takeWhile (fun c => !(c == '/' || c == '?' || c == '#'))
  | none => []

/-- Host membership in the `1688.com` domain: the host equals `1688.com` or
ends in `.1688.com`. -/
def inDomain1688 (h : Str) : Bool :=
  (h == "1688.com".data) || isSuf ".1688.com".data h

/-! ## Title extraction (`Product1688Scraper.extract_title`) -/

/-- The sentinel returned when no title strategy succeeds. -/
def sentinelTitle : Str := "未找到商品标题".data

/-- Noise tokens rejected by the selector phase of `extract_title`. -/
def bannedTitleSel : List Str :=
  ["javascript".data, "function".data, "error".data, "undefined".data]

/-- Noise tokens rejected by the script phase of `extract_title`. -/
def bannedTitleJs : List Str :=
  ["function".data, "undefined".data, "null".data, "error".data]

/-- Selector phase of `extract_title`: first element text of length in
`(5, 200)` containing none of the noise tokens (case-insensitively). -/
def selTitlePhase (d : Doc) : Option Str :=
  d.titleSelectorTexts.findSome? fun elems =>
    elems.findSome? fun t =>
      if !t.isEmpty && decide (5 < t.length) && decide (t.length < 200) &&
         !(bannedTitleSel.any fun w => containsSub w (pyLower t)) then
        some t
      else none

/-- Scanner for the suffix-stripping substitutions
`re.sub(r'[-–—].*?(阿里巴巴|1688|中国制造网|批发网).*?$', '', title)` and
`re.sub(r'_.*?(阿里巴巴|1688).*?$', '', title)` of the page-title phase.

Derivation: `.` and hence `.*?` cannot cross a newline, and without
`re.MULTILINE` the anchor `$` matches only at the end of the string or just
before a single trailing newline.  A match therefore starts at a trigger
character (`dashes`) lying in the final newline-free segment before the
anchor, with some keyword occurring after it inside that segment; `re.sub`
removes from the leftmost such trigger through the anchor, keeping a trailing
newline if present.  `cutAtDashKw` returns the kept part of the segment (the
part before the leftmost viable trigger), or `none` when there is no match. -/
def cutAtDashKw (dashes : List Char) (kws : List Str) : Str → Option Str
  | [] => none
  | c :: rest =>
    if dashes.contains c && kws.any (fun k => containsSub k rest) then some []
    else
      match cutAtDashKw dashes kws rest with
      | some kept => some (c :: kept)
      | none => none

/-- The whole substitution (see `cutAtDashKw`): split off a single trailing
newline, locate the final newline-free segment, cut it at the leftmost viable
trigger. -/
def subDashSuffix (dashes : List Char) (kws : List Str) (l : Str) : Str :=
  let core := if l.getLast? == some '\n' then l.dropLast else l
  let trail : Str := if l.getLast? == some '\n' then ['\n'] else []
  let seg := (core.reverse.takeWhile (fun c => !(c == '\n'))).reverse
  let pre := core.take (core.length - seg.length)
  match cutAtDashKw dashes kws seg with
  | some kept => pre ++ kept ++ trail
  | none => l

/-- Page-title phase of `extract_title`: strip, apply the two suffix
substitutions (each followed by `strip`), accept when longer than 5. -/
def pageTitlePhase (d : Doc) : Option Str :=
  match d.titleTag with
  | none => none
  | some raw =>
    let t0 := pyStrip raw
    let t1 := pyStrip (subDashSuffix ['-', '–', '—']
      ["阿里巴巴".data, "1688".data, "中国制造网".data, "批发网".data] t0)
    let t2 := pyStrip (subDashSuffix ['_'] ["阿里巴巴".data, "1688".data] t1)
    if !t2.isEmpty && decide (5 < t2.length) then some t2 else none

/-- JSON-LD phase of `extract_title`: the first payload that is an object with
a `name` key, or a list containing such an object, yields that `name` value.
(Python returns the raw value even when it is not a string; only
string-valued names are representable here, see `Json`.) -/
def jsonLdName : Json → Option Str
  | .obj kvs =>
    match kvs.lookup "name".data with
    | some (.str s) => some s
    | _ => none
  | .arr items =>
    items.findSome? fun j =>
      match j with
      | .obj kvs =>
        match kvs.lookup "name".data with
        | some (.str s) => some s
        | _ => none
      | _ => none
  | _ => none

/-- Script phase of `extract_title`: the first capture (scripts outer,
patterns inner) whose stripped form is longer than 5 and which contains no
noise token; the stripped capture is returned. -/
def jsTitlePhase (d : Doc) : Option Str :=
  d.scripts.findSome? fun sc =>
    sc.titleMatches.findSome? fun pat =>
      pat.findSome? fun m =>
        if !m.isEmpty && decide (5 < (pyStrip m).length) &&
           !(bannedTitleJs.any fun w => containsSub w (pyLower m)) then
          some (pyStrip m)
        else none

/-- Embeds `Product1688Scraper.extract_title`: the four-phase cascade with the
sentinel as default. -/
def extract_title (d : Doc) : Str :=
  match selTitlePhase d with
  | some t => t
  | none =>
  match pageTitlePhase d with
  | some t => t
  | none =>
  match d.jsonLd.findSome? jsonLdName with
  | some t => t
  | none =>
  match jsTitlePhase d with
  | some t => t
  | none => sentinelTitle

/-! ## Price extraction (`Product1688Scraper.extract_price`) -/

/-- The sentinel returned when no price strategy succeeds. -/
def sentinelPrice : Str := "价格面议".data

/-- Attempt of the regex `[¥$￥]?\s*[\d,]+\.?\d*` anchored at the head of
`l`.  Hand-compilation: the optional currency glyph commits greedily (if the
mandatory digit/comma run then fails, the zero-glyph alternative fails at the
same position too, since a glyph is neither whitespace nor a digit), `\s*`
and the runs are greedy with no profitable backtracking (`\s`, `[\d,]` and
`\.` are disjoint character classes). -/
def matchPriceAt (l : Str) : Option Str :=
  let cur : Str := match l with
    | c :: _ => if c == '¥' || c == '$' || c == '￥' then [c] else []
    | [] => []
  let r1 := l.drop cur.length
  let ws := r1.takeWhile isPySpace
  let r2 := r1.drop ws.length
  match r2.takeWhile (fun c => c.isDigit || c == ',') with
  | [] => none
  | d :: ds =>
    let r3 := r2.drop (d :: ds).length
    let dot : Str := match r3 with
      | '.' :: _ => ['.']
      | _ => []
    let frac := (r3.drop dot.length).takeWhile Char.isDigit
    some (cur ++ ws ++ (d :: ds) ++ dot ++ frac)

/-- Embeds `re.search` with the price regex: the match at the leftmost position
where one exists. -/
def searchPrice (l : Str) : Option Str :=
  match matchPriceAt l with
  | some m => some m
  | none =>
    match l with
    | [] => none
    | _ :: rest => searchPrice rest

/-- Selector phase of `extract_price`: for each selector with a matched
element, search its text for the price pattern; first hit wins (a text
without a hit falls through to the next selector). -/
def selPricePhase (d : Doc) : Option Str :=
  d.priceSelectorTexts.findSome? fun t? =>
    match t? with
    | some t => searchPrice t
    | none => none

/-- Embeds `Product1688Scraper.extract_price`: selector cascade, then the first
script whose price-pattern capture list is non-empty contributes its first
capture (a non-empty capture list implies the script text contained the
literal `"price`, so the Python gate `'price' in script.string.lower()` is
subsumed), then the sentinel. -/
def extract_price (d : Doc) : Str :=
  match selPricePhase d with
  | some p => p
  | none =>
  match d.scripts.findSome? (fun sc => sc.priceMatches.head?) with
  | some p => p
  | none => sentinelPrice

/-! ## Image extraction (`Product1688Scraper.extract_images`,
`Product1688Scraper.is_valid_image_url`) -/

/-- Python's string `or` is false on the empty string: keep the first
attribute that is present and non-empty. -/
def pyOrS : Option Str → Option Str → Option Str
  | some s, b => if s.isEmpty then b else some s
  | none, b => b

/-- Embeds `img.get('src') or img.get('data-src') or img.get('data-original')`. -/
def pickImgUrl (i : ImgTag) : Option Str :=
  pyOrS i.src (pyOrS i.dataSrc i.dataOriginal)

/-- Embeds `urllib.parse.urljoin(base, ref)` restricted to root-relative references
(`ref` starting with `/`, the only use in the scraper): scheme and authority
of the base followed by the reference; a base without `://` has no authority
and the reference is returned alone. -/
def urljoin (b ref : Str) : Str :=
  match splitFirstSub "://".data b with
  | some p => p.1 ++ "://".data ++ p.2.takeWhile (fun c => !(c == '/' || c == '?' || c == '#')) ++ ref
  | none => ref

/-- Substring patterns of `is_valid_image_url` (all matched with
`re.IGNORECASE`; the escaped dots make them plain substrings). -/
def invalidImgSubs : List Str :=
  ["1x1.gif".data, "placeholder".data, "loading".data, "icon".data,
   "logo".data, "btn".data, "bg.".data]

/-- Embeds `Product1688Scraper.is_valid_image_url`: non-empty, at least 10
characters, and matching none of the noise patterns; `\.svg$` anchors at the
end of the string or just before a single trailing newline. -/
def is_valid_image_url (u : Str) : Bool :=
  if u.isEmpty || decide (u.length < 10) then false
  else
    let lu := pyLower u
    let core := if lu.getLast? == some '\n' then lu.dropLast else lu
    !(invalidImgSubs.any fun p => containsSub p lu) && !(isSuf ".svg".data core)

/-- Relative-reference handling of `extract_images`: protocol-relative URLs
get `https:`, root-relative URLs are joined with the base, anything else is
kept verbatim. -/
def resolveImgUrl (base u : Str) : Str :=
  if isPre "//".data u then "https:".data ++ u
  else if isPre "/".data u then urljoin base u
  else u

/-- The candidate list of `extract_images` before deduplication (the Python
`images` accumulator): selector-derived candidates (resolved and filtered),
then script-derived matches (filtered). -/
def imageCandidates (d : Doc) (base : Str) : List Str :=
  let fromSel :=
    d.imgSelectorImgs.foldl (fun acc imgs =>
      imgs.foldl (fun a i =>
        match pickImgUrl i with
        | some u =>
          if u.isEmpty then a
          else
            let r := resolveImgUrl base u
            if is_valid_image_url r then a ++ [r] else a
        | none => a) acc) []
  d.scripts.foldl (fun acc sc =>
    sc.imageMatches.foldl (fun a m =>
      if is_valid_image_url m then a ++ [m] else a) acc) fromSel

/-- Embeds `Product1688Scraper.extract_images`: deduplicate preserving first-seen
order, truncate to 10. -/
def extract_images (d : Doc) (base : Str) : List Str :=
  (dedupFirst (imageCandidates d base)).take 10

/-! ## Description cleaning (`Product1688Scraper.clean_description`) -/

/-- State of the tag-removal automaton `rtGo`:
outside any candidate tag / just after a `<` / buffering between an opening
`<` (with at least one following character) and the closing `>`. -/
inductive RTState where
  | out : RTState
  | lt : RTState
  | inside : Str → RTState

/-- Automaton for `re.sub(r'<[^>]+>', '', s)`.  A match starts at a `<` and
extends exactly to the first later `>`, provided at least one character lies
between (`[^>]+` cannot skip a `>`, and greediness with the final `>` forces
the first one).  `re.sub` removes the leftmost match and continues scanning
after it; a `<` immediately followed by `>` matches nothing and both
characters are kept; a `<` with no later `>` keeps everything (the buffer is
emitted at the end of input).  `inside buf` holds the scanned characters
after the pending `<` in reverse order; a buffered character is never `>`. -/
def rtGo : RTState → Str → Str
  | .out, [] => []
  | .lt, [] => ['<']
  | .inside buf, [] => '<' :: buf.reverse
  | .out, c :: rest => if c == '<' then rtGo .lt rest else c :: rtGo .out rest
  | .lt, c :: rest =>
    if c == '>' then '<' :: '>' :: rtGo .out rest else rtGo (.inside [c]) rest
  | .inside buf, c :: rest =>
    if c == '>' then rtGo .out rest else rtGo (.inside (c :: buf)) rest

/-- Embeds `re.sub(r'<[^>]+>', '', s)` (see `rtGo`). -/
def removeTags (l : Str) : Str := rtGo .out l

/-- Automaton for `re.sub(r'\s+', ' ', s)`: each maximal whitespace run
becomes a single space; the flag records whether the current position
continues a run whose space was already emitted. -/
def cwGo : Bool → Str → Str
  | _, [] => []
  | inWs, c :: rest =>
    if isPySpace c then
      if inWs then cwGo true rest else ' ' :: cwGo true rest
    else c :: cwGo false rest

/-- Embeds `re.sub(r'\s+', ' ', s)` (see `cwGo`). -/
def collapseWs (l : Str) : Str := cwGo false l

/-- Embeds `Product1688Scraper.clean_description`: strip HTML tags, collapse
whitespace and strip, replace NBSP by a space, remove zero-width spaces,
truncate to 800 characters with an ellipsis marker. -/
def clean_description (s : Str) : Str :=
  if s.isEmpty then []
  else
    let s1 := removeTags s
    let s2 := pyStrip (collapseWs s1)
    let s3 := (s2.map fun c => if c = Char.ofNat 0xa0 then ' ' else c).filter
      fun c => !(c = Char.ofNat 0x200b : Bool)
    if decide (800 < s3.length) then s3.take 800 ++ "...".data else s3

/-! ## Description extraction (`Product1688Scraper.extract_description`,
`extract_description_from_json`, `extract_product_features`) -/

/-- The likely description field names searched by
`extract_description_from_json`. -/
def edfjFields : List Str :=
  ["description".data, "productDescription".data, "desc".data, "content".data, "summary".data]

/-- Field scan of `extract_description_from_json` on one object: the first
listed field present with a string value longer than 10 characters
(`isinstance(data[field], str)` excludes non-string values). -/
def edfjFieldScan (kvs : List (Str × Json)) : Option Str :=
  edfjFields.findSome? fun f =>
    match kvs.lookup f with
    | some (.str s) => if decide (10 < s.length) then some s else none
    | _ => none

mutual

/-- Embeds `Product1688Scraper.extract_description_from_json`: look for a likely
description field, then recurse into container values (string values are not
recursed into, per the `isinstance(value, (dict, list))` guard); in a list,
the first item yielding a result wins. -/
def extract_description_from_json : Json → Option Str
  | .str _ => none
  | .arr items => edfjList items
  | .obj kvs =>
    match edfjFieldScan kvs with
    | some s => some s
    | none => edfjVals kvs

/-- List traversal of `extract_description_from_json`. -/
def edfjList : List Json → Option Str
  | [] => none
  | j :: rest =>
    match extract_description_from_json j with
    | some s => some s
    | none => edfjList rest

/-- Value traversal of `extract_description_from_json` over an object's
values (container values only). -/
def edfjVals : List (Str × Json) → Option Str
  | [] => none
  | (_, v) :: rest =>
    match (match v with
           | .str _ => none
           | _ => extract_description_from_json v) with
    | some s => some s
    | none => edfjVals rest

end

/-- Noise tokens rejected by `extract_product_features`. -/
def bannedFeat : List Str :=
  ["function".data, "undefined".data, "null".data, "error".data, "script".data, "click".data]

/-- Acceptance filter of `extract_product_features`: non-empty text of length
in `(5, 200)` without noise tokens. -/
def featAccept (t : Str) : Bool :=
  !t.isEmpty && decide (5 < t.length) && decide (t.length < 200) &&
  !(bannedFeat.any fun w => containsSub w (pyLower t))

/-- Selector loop of `extract_product_features`: accumulate accepted,
not-yet-seen texts selector by selector, stopping once 8 are collected. -/
def featGo (acc : List Str) : List (List Str) → List Str
  | [] => acc
  | sel :: rest =>
    let acc' := sel.foldl (fun a t => if featAccept t && !(a.contains t) then a ++ [t] else a) acc
    if decide (8 ≤ acc'.length) then acc' else featGo acc' rest

/-- Embeds `Product1688Scraper.extract_product_features`: the capped feature list. -/
def extract_product_features (d : Doc) : List Str :=
  (featGo [] d.featureSelectorTexts).take 8

/-- Noise tokens rejected by the selector and script phases of
`extract_description`. -/
def bannedDesc : List Str :=
  ["javascript".data, "function".data, "error".data, "undefined".data, "script".data]

/-- Noise tokens rejected by the script phase of `extract_description`. -/
def bannedDescJs : List Str :=
  ["function".data, "undefined".data, "null".data, "error".data, "script".data]

/-- Selector phase of `extract_description`: first element text of length in
`(10, 2000)` without noise tokens, cleaned. -/
def descSelPhase (d : Doc) : Option Str :=
  d.descSelectorTexts.findSome? fun elems =>
    elems.findSome? fun t =>
      if decide (10 < t.length) && decide (t.length < 2000) &&
         !(bannedDesc.any fun w => containsSub w (pyLower t)) then
        some (clean_description t)
      else none

/-- Meta phase of `extract_description`: a non-empty
`<meta name="description">` content, stripped, longer than 10, cleaned. -/
def descMetaPhase (d : Doc) : Option Str :=
  match d.metaDescription with
  | none => none
  | some c =>
    if c.isEmpty then none
    else
      let t := pyStrip c
      if decide (10 < t.length) then some (clean_description t) else none

/-- Script phase of `extract_description`: first capture (scripts outer,
patterns inner) whose stripped form is longer than 10 and which contains no
noise token; the raw capture is cleaned and returned. -/
def descJsPhase (d : Doc) : Option Str :=
  d.scripts.findSome? fun sc =>
    sc.descMatches.findSome? fun pat =>
      pat.findSome? fun m =>
        if !m.isEmpty && decide (10 < (pyStrip m).length) &&
           !(bannedDescJs.any fun w => containsSub w (pyLower m)) then
          some (clean_description m)
        else none

/-- Embeds `Product1688Scraper.extract_description`: selector, meta, JSON-LD and
script phases (each passing through `clean_description`), then the
feature-synthesis fallback `"产品特点：" + "；".join(features[:5])`, then the
title-synthesis fallback, then the sentinel.  The two synthesis fallbacks and
the sentinel are not cleaned. -/
def extract_description (d : Doc) : Str :=
  match descSelPhase d with
  | some r => r
  | none =>
  match descMetaPhase d with
  | some r => r
  | none =>
  match d.jsonLd.findSome? extract_description_from_json with
  | some s => clean_description s
  | none =>
  match descJsPhase d with
  | some r => r
  | none =>
  let features := extract_product_features d
  if !features.isEmpty then
    "产品特点：".data ++ List.intercalate "；".data (features.take 5)
  else
    let title := extract_title d
    if !title.isEmpty && !(title == sentinelTitle) then
      "这是一款".data ++ title ++ "。商品来自1688平台，详细信息请查看原链接。".data
    else "暂无详细描述".data

/-! ## Specification extraction (`Product1688Scraper.extract_specifications`) -/

/-- Key tokens excluding a table row from the specification table phase. -/
def specBannedKey : List Str :=
  ["序号".data, "number".data, "index".data, "操作".data]

/-- Table phase: for every row with at least two cells, the first two cell
texts become key and value when non-empty, length-bounded, and the key
contains no excluded token. -/
def specTablePhase (specs0 : List (Str × Str)) (tables : List (List (List Str))) :
    List (Str × Str) :=
  tables.foldl (fun specs rows =>
    rows.foldl (fun specs cells =>
      match cells with
      | k :: v :: _ =>
        if !k.isEmpty && !v.isEmpty && decide (k.length < 50) && decide (v.length < 200) &&
           !(specBannedKey.any fun w => containsSub w (pyLower k)) then
          specInsert specs k v
        else specs
      | _ => specs) specs) specs0

/-- Definition-list phase: a `dl` with both a `dt` and a `dd` contributes the
pair when non-empty and length-bounded. -/
def specDlPhase (specs0 : List (Str × Str)) (dls : List (Option Str × Option Str)) :
    List (Str × Str) :=
  dls.foldl (fun specs dl =>
    match dl with
    | (some k, some v) =>
      if !k.isEmpty && !v.isEmpty && decide (k.length < 50) && decide (v.length < 200) then
        specInsert specs k v
      else specs
    | _ => specs) specs0

/-- Python `item.get(k, '')` on a parsed JSON object, restricted to string values.
(On a present non-string value Python would raise `AttributeError` at the
following `.strip()`, aborting the whole script phase while keeping the
entries inserted so far; that path is not modelled and is irrelevant to the
bound invariants, which hold after every prefix of insertions.) -/
def strGet (kvs : List (Str × Json)) (k : Str) : Str :=
  match kvs.lookup k with
  | some (.str s) => s
  | _ => []

/-- Python `k in item` together with a string value.  (For a present non-string
value Python's `str()` would insert its repr, which passes the same length
checks; only string values are modelled, see `Json`.) -/
def strField (kvs : List (Str × Json)) (k : Str) : Option Str :=
  match kvs.lookup k with
  | some (.str s) => some s
  | _ => none

/-- The dead-code needle `'"},{\'name'` of the embedded-object check (dead
because quotes were already removed from `value` one line earlier). -/
def jsonNoiseNeedle1 : Str :=
  ['"', Char.ofNat 0x7d, ',', Char.ofNat 0x7b, '\'', 'n', 'a', 'm', 'e']

/-- The dead-code needle `'},{"name'` (see `jsonNoiseNeedle1`). -/
def jsonNoiseNeedle2 : Str :=
  [Char.ofNat 0x7d, ',', Char.ofNat 0x7b, '"', 'n', 'a', 'm', 'e']

/-- Does `\}\s*,\s*\{` match at the head of `l`?  (`\s*` is greedy and `,`
is not whitespace, so maximal-munch is exact.) -/
def braceSepAt (l : Str) : Bool :=
  match l with
  | c :: r =>
    if c == Char.ofNat 0x7d then
      match r.dropWhile isPySpace with
      | c2 :: r2 =>
        if c2 == ',' then
          match r2.dropWhile isPySpace with
          | c3 :: _ => c3 == Char.ofNat 0x7b
          | [] => false
        else false
      | [] => false
    else false
  | [] => false

/-- Embeds `re.split(r'\}\s*,\s*\{', v)[0]`: the part before the first separator
match (the whole string when there is none). -/
def splitBraceFirst : Str → Str
  | [] => []
  | c :: rest => if braceSepAt (c :: rest) then [] else c :: splitBraceFirst rest

/-- Embeds `re.sub(r'\}\s*$', '', v)`: `\s*` may cross newlines and `$` anchors the
end, so the unique possible match is the last `}` when only whitespace
follows it; both it and that trailing whitespace are removed. -/
def stripTrailingBraceWs (v : Str) : Str :=
  let rev := v.reverse
  match rev.drop (rev.takeWhile isPySpace).length with
  | c :: r => if c == Char.ofNat 0x7d then r.reverse else v
  | [] => v

/-- ASCII-alphanumeric or CJK-unified-ideograph test
(the class `[a-zA-Z0-9一-鿿]`). -/
def isWordCjk (c : Char) : Bool :=
  ('a' ≤ c && c ≤ 'z') || ('A' ≤ c && c ≤ 'Z') || ('0' ≤ c && c ≤ '9') ||
  (0x4e00 ≤ c.val && c.val ≤ 0x9fff)

/-- The value cleanup of the script phase: remove quotes and backslashes, cut
at an embedded-object boundary (dead code, kept for fidelity), strip one
trailing `}` with its trailing whitespace, drop leading non-word characters
(`^`-anchored, so only at the start). -/
def cleanSpecValue (v : Str) : Str :=
  let v1 := v.filter fun c => !(c == '"' || c == '\\')
  let v2 :=
    if containsSub jsonNoiseNeedle1 v1 || containsSub jsonNoiseNeedle2 v1 then
      splitBraceFirst v1
    else v1
  let v3 := stripTrailingBraceWs v2
  v3.dropWhile fun c => !isWordCjk c

/-- One parsed array item of the script phase: the `name`/`value` pair with
cleanup, then the nine `key`/`label`/`title` × `value`/`val`/`content`
combinations. -/
def specScriptItem (specs0 : List (Str × Str)) (item : Json) : List (Str × Str) :=
  match item with
  | .obj kvs =>
    let name := pyStrip (strGet kvs "name".data)
    let value := pyStrip (strGet kvs "value".data)
    let specs1 :=
      if !name.isEmpty && !value.isEmpty && decide (name.length < 50) &&
         decide (value.length < 200) then
        let name' := name.filter fun c => !(c == '"' || c == '\\')
        let value' := cleanSpecValue value
        if !name'.isEmpty && !value'.isEmpty then specInsert specs0 name' value' else specs0
      else specs0
    ["key".data, "label".data, "title".data].foldl (fun specs kf =>
      ["value".data, "val".data, "content".data].foldl (fun specs vf =>
        match strField kvs kf, strField kvs vf with
        | some ks, some vs =>
          let k := pyStrip ks
          let v := pyStrip vs
          if !k.isEmpty && !v.isEmpty && decide (k.length < 50) && decide (v.length < 200) then
            specInsert specs k v
          else specs
        | _, _ => specs) specs) specs1
  | _ => specs0

/-- Script phase: for each script, every item of every parsed array, then the
simple capture pairs (stripped and length-checked). -/
def specScriptPhase (specs0 : List (Str × Str)) (scripts : List Script) :
    List (Str × Str) :=
  scripts.foldl (fun specs sc =>
    let specs := sc.specArrays.foldl (fun specs arr => arr.foldl specScriptItem specs) specs
    sc.specSimpleMatches.foldl (fun specs p =>
      let n := pyStrip p.1
      let v := pyStrip p.2
      if !n.isEmpty && !v.isEmpty && decide (n.length < 50) && decide (v.length < 200) then
        specInsert specs n v
      else specs) specs) specs0

/-- Domain keywords one of which the free-text phase requires in the key. -/
def specKeywords : List Str :=
  ["材质".data, "颜色".data, "尺寸".data, "重量".data, "规格".data,
   "型号".data, "品牌".data, "产地".data, "工艺".data]

/-- Placeholder values rejected by the free-text phase. -/
def specBadValues : List Str := [[], "详见描述".data, "请咨询客服".data]

/-- Free-text phase: a captured key-value fragment is accepted when the key
contains a domain keyword, both parts are short, and the value is not a
placeholder. -/
def specTextPhase (specs0 : List (Str × Str)) (kvs : List (Str × Str)) :
    List (Str × Str) :=
  kvs.foldl (fun specs p =>
    let k := pyStrip p.1
    let v := pyStrip p.2
    if specKeywords.any (fun w => containsSub w k) then
      if decide (k.length < 20) && decide (v.length < 100) && !(specBadValues.contains v) then
        specInsert specs k v
      else specs
    else specs) specs0

/-- Embeds `Product1688Scraper.extract_specifications`: the four accumulating phases
in source order. -/
def extract_specifications (d : Doc) : List (Str × Str) :=
  let s1 := specTablePhase [] d.specTables
  let s2 := specDlPhase s1 d.specDls
  let s3 := specScriptPhase s2 d.scripts
  specTextPhase s3 d.pageKvMatches

/-! ## Orchestration (`Product1688Scraper.scrape_product`,
`scrape_1688_product`) -/

/-- A Python exception, reduced to its class name and message. -/
structure PyExc where
  name : Str
  msg : Str
deriving DecidableEq

/-- The environment of one scrape call:

* `fetch` — the result of `get_page_content` per URL (`none` = all fetch
  strategies exhausted; the internal retry/mirror logic of the fetcher is
  inside this oracle);
* `now` — `time.strftime("%Y-%m-%d %H:%M:%S")`;
* `assembleExc` — an exception raised inside the record-building `try` of
  `scrape_product`, if any;
* `outerExc` — an exception raised inside the body of the outermost `try` of
  `scrape_1688_product` and not already converted below it, if any. -/
structure World where
  fetch : Str → Option Doc
  now : Str
  assembleExc : Option PyExc
  outerExc : Option PyExc

/-- The success record assembled by `scrape_product`. -/
structure ProductInfo where
  url : Str
  product_id : Option Str
  title : Str
  price : Str
  images : List Str
  description : Str
  specifications : List (Str × Str)
  scraped_at : Str
deriving DecidableEq

/-- Result of `scrape_product`: an error record or a success record. -/
inductive ScrapeOutcome where
  | err : Str → ScrapeOutcome
  | ok : ProductInfo → ScrapeOutcome
deriving DecidableEq

/-- The desktop host substring tested by the mobile-fallback logic. -/
def desktopHost : Str := "detail.1688.com".data

/-- The mobile host substituted for the desktop host. -/
def mobileHost : Str := "m.1688.com".data

/-- Error message for an invalid URL. -/
def errInvalidUrl : Str := "无效的1688商品链接格式".data

/-- Error message when no document could be obtained. -/
def errNoContent : Str := "无法获取页面内容，可能需要登录或页面不存在".data

/-- The record construction of `scrape_product` (its `product_info` dict). -/
def mkProductInfo (w : World) (d : Doc) (url : Str) : ProductInfo :=
  { url := url
    product_id := extract_product_id url
    title := extract_title d
    price := extract_price d
    images := extract_images d url
    description := extract_description d
    specifications := extract_specifications d
    scraped_at := w.now }

/-- The tail of `scrape_product` after the mobile-fallback block: no document
is an error; otherwise the record is built inside a `try` whose handler
converts an exception into an error record. -/
def finishScrape (w : World) (soup : Option Doc) (url : Str) : ScrapeOutcome :=
  match soup with
  | none => .err errNoContent
  | some d =>
    match w.assembleExc with
    | some e => .err ("抓取过程中发生错误: ".data ++ e.msg)
    | none => .ok (mkProductInfo w d url)

/-- Embeds `Product1688Scraper.scrape_product`, instrumented with the list of URLs
passed to `get_page_content` (the network-call trace).  Control flow:
validate; fetch the input URL; when the URL contains the desktop host and the
fetch failed or the fetched document's title extraction returns the sentinel,
fetch the mobile-substituted URL once, and adopt its document and URL exactly
when it was fetched and its title is non-sentinel; finish on whichever
document and URL were adopted. -/
def scrape_product (w : World) (url : Str) : ScrapeOutcome × List Str :=
  if validate_url url then
    let soup := w.fetch url
    let shouldTryMobile : Bool :=
      match soup with
      | none => containsSub desktopHost url
      | some s => containsSub desktopHost url && decide (extract_title s = sentinelTitle)
    if shouldTryMobile then
      let murl := replaceSub desktopHost mobileHost url
      match w.fetch murl with
      | some ms =>
        if decide (extract_title ms ≠ sentinelTitle) then
          (finishScrape w (some ms) murl, [url, murl])
        else (finishScrape w soup url, [url, murl])
      | none => (finishScrape w soup url, [url, murl])
    else (finishScrape w soup url, [url])
  else (.err errInvalidUrl, [])

/-- The quality computation of `scrape_1688_product`: the running score and
the detail lines, in source order. -/
def quality_eval (p : ProductInfo) : Nat × List Str :=
  let s0 : Nat := 0
  let d0 : List Str := []
  let t1 :=
    if !p.title.isEmpty && decide (p.title ≠ sentinelTitle) && decide (5 < p.title.length) then
      (s0 + 3, d0 ++ ["✓ 标题获取成功".data])
    else (s0, d0 ++ ["✗ 标题获取失败".data])
  let t2 :=
    if !p.price.isEmpty && decide (p.price ≠ "N/A".data) then
      (t1.1 + 2, t1.2 ++ ["✓ 价格获取成功".data])
    else (t1.1, t1.2 ++ ["✗ 价格获取失败".data])
  let t3 :=
    if !p.images.isEmpty && decide (0 < p.images.length) then
      (t2.1 + 3, t2.2 ++ ["✓ 获取到 ".data ++ natToStr p.images.length ++ " 张图片".data])
    else (t2.1, t2.2 ++ ["✗ 图片获取失败".data])
  let t4 :=
    if !p.description.isEmpty && decide (10 < p.description.length) then
      (t3.1 + 1, t3.2 ++ ["✓ 描述获取成功".data])
    else (t3.1, t3.2 ++ ["✗ 描述获取失败".data])
  if !p.specifications.isEmpty && decide (0 < p.specifications.length) then
    (t4.1 + 1, t4.2 ++ ["✓ 获取到 ".data ++ natToStr p.specifications.length ++ " 个规格参数".data])
  else (t4.1, t4.2 ++ ["✗ 规格参数获取失败".data])

/-- The `debug_info` attached to a success record. -/
structure SuccessDebug where
  quality_score : Str
  quality_details : List Str
  extraction_method : Str
  platform : Str
  cloud_optimized : Bool
deriving DecidableEq

/-- The `debug_info` attached to an error record: the enriched extraction
failure, or the outer exception conversion. -/
inductive ErrDebug where
  | extractionFailed : (original_url error_type suggestion : Str) →
      (cloud_environment : Bool) → ErrDebug
  | exception : (url exception_type suggestion : Str) →
      (cloud_environment : Bool) → ErrDebug
deriving DecidableEq

/-- Result of the entry point: a success record with quality diagnostics or
an error record with debug information. -/
inductive FinalResult where
  | ok : ProductInfo → SuccessDebug → FinalResult
  | err : Str → ErrDebug → FinalResult
deriving DecidableEq

/-- Remediation hint attached to extraction failures. -/
def hintExtraction : Str := "请检查链接是否需要登录或在本地测试".data

/-- Remediation hint attached to converted exceptions. -/
def hintException : Str := "请检查网络连接和链接有效性".data

/-- Embeds `scrape_1688_product`, instrumented with the network-call trace: the
whole body runs inside a catch-all `try`; on the normal path the scrape
result is enriched with quality diagnostics (success) or debug information
(error); an uncaught exception is converted into an error record carrying
the exception's class name and a remediation hint, so no exception escapes
to the caller.  (On the exception path the trace depends on where the
exception struck and is not modelled.) -/
def scrape_1688_product (w : World) (url : Str) : FinalResult × List Str :=
  match w.outerExc with
  | some e =>
    (.err ("抓取异常: ".data ++ e.msg) (.exception url e.name hintException true), [])
  | none =>
    let r := scrape_product w url
    match r.1 with
    | .ok p =>
      let q := quality_eval p
      let method := if containsSub mobileHost p.url then "移动版".data else "桌面版".data
      (.ok p ⟨natToStr q.1 ++ "/10".data, q.2, method, "1688".data, true⟩, r.2)
    | .err msg =>
      (.err msg (.extractionFailed url "extraction_failed".data hintExtraction true), r.2)

/-! ## General lemmas about the string helpers -/

theorem isPre_append (p t : Str) : isPre p (p ++ t) = true := by
  induction p with
  | nil => rfl
  | cons a as ih => simp [isPre, ih]

theorem isPre_exists {p l : Str} (h : isPre p l = true) : ∃ t, l = p ++ t := by
  induction p generalizing l with
  | nil => exact ⟨l, rfl⟩
  | cons a as ih =>
    cases l with
    | nil => simp [isPre] at h
    | cons b bs =>
      simp only [isPre, Bool.and_eq_true, beq_iff_eq] at h
      obtain ⟨t, ht⟩ := ih h.2
      exact ⟨t, by simp [h.1, ht]⟩

theorem isPre_ne_nil {p l : Str} (hp : p ≠ []) (h : isPre p l = true) : l ≠ [] := by
  obtain ⟨t, rfl⟩ := isPre_exists h
  simp [hp]

theorem dedupFirstAux_subset {l : List Str} {seen : List Str} {x : Str}
    (h : x ∈ dedupFirstAux seen l) : x ∈ l := by
  induction l generalizing seen with
  | nil => simp [dedupFirstAux] at h
  | cons y ys ih =>
    simp only [dedupFirstAux] at h
    split at h
    · exact List.mem_cons_of_mem _ (ih h)
    · rcases List.mem_cons.1 h with h | h
      · simp [h]
      · exact List.mem_cons_of_mem _ (ih h)

theorem dedupFirstAux_not_mem_seen {l : List Str} {seen : List Str} {x : Str}
    (h : x ∈ dedupFirstAux seen l) : x ∉ seen := by
  induction l generalizing seen with
  | nil => simp [dedupFirstAux] at h
  | cons y ys ih =>
    simp only [dedupFirstAux] at h
    split at h
    · exact ih h
    · rcases List.mem_cons.1 h with rfl | h
      · assumption
      · intro hx
        exact ih h (List.mem_cons_of_mem _ hx)

theorem dedupFirstAux_nodup (l : List Str) (seen : List Str) :
    (dedupFirstAux seen l).Nodup := by
  induction l generalizing seen with
  | nil => simp [dedupFirstAux]
  | cons y ys ih =>
    simp only [dedupFirstAux]
    split
    · exact ih seen
    · refine List.nodup_cons.2 ⟨fun hy => ?_, ih (y :: seen)⟩
      exact dedupFirstAux_not_mem_seen hy (List.mem_cons_self _ _)

theorem dedupFirstAux_sublist (l : List Str) (seen : List Str) :
    (dedupFirstAux seen l).Sublist l := by
  induction l generalizing seen with
  | nil => simp [dedupFirstAux]
  | cons y ys ih =>
    simp only [dedupFirstAux]
    split
    · exact (ih seen).trans (List.sublist_cons_self _ _)
    · exact (ih (y :: seen)).cons₂ y

theorem dedupFirst_nodup (l : List Str) : (dedupFirst l).Nodup :=
  dedupFirstAux_nodup l []

theorem dedupFirst_sublist (l : List Str) : (dedupFirst l).Sublist l :=
  dedupFirstAux_sublist l []

/-- A generic preservation principle for the accumulating folds of the
scraper. -/
theorem foldl_pres {α : Type} {Q : List (Str × Str) → Prop}
    {f : List (Str × Str) → α → List (Str × Str)}
    (hf : ∀ s a, Q s → Q (f s a)) :
    ∀ (l : List α) (s : List (Str × Str)), Q s → Q (l.foldl f s) := by
  intro l
  induction l with
  | nil => intro s hs; exact hs
  | cons a l ih => intro s hs; exact ih _ (hf s a hs)

/-- A generic preservation principle for folds accumulating string lists. -/
theorem foldl_pres_str {α : Type} {Q : List Str → Prop}
    {f : List Str → α → List Str}
    (hf : ∀ s a, Q s → Q (f s a)) :
    ∀ (l : List α) (s : List Str), Q s → Q (l.foldl f s) := by
  intro l
  induction l with
  | nil => intro s hs; exact hs
  | cons a l ih => intro s hs; exact ih _ (hf s a hs)

theorem findSome?_exists {α β : Type} {f : α → Option β} {l : List α} {b : β}
    (h : l.findSome? f = some b) : ∃ a ∈ l, f a = some b := by
  induction l with
  | nil => simp [List.findSome?] at h
  | cons x xs ih =>
    rw [List.findSome?_cons] at h
    cases hf : f x with
    | some v =>
      rw [hf] at h
      simp only [Option.some.injEq] at h
      exact ⟨x, List.mem_cons_self _ _, by simp [hf, h]⟩
    | none =>
      rw [hf] at h
      obtain ⟨a, ha, hfa⟩ := ih h
      exact ⟨a, List.mem_cons_of_mem _ ha, hfa⟩

theorem pyStrip_length_le (l : Str) : (pyStrip l).length ≤ l.length := by
  unfold pyStrip
  calc ((l.dropWhile isPySpace).reverse.dropWhile isPySpace).reverse.length
      = ((l.dropWhile isPySpace).reverse.dropWhile isPySpace).length := by
        rw [List.length_reverse]
    _ ≤ (l.dropWhile isPySpace).reverse.length :=
        (List.dropWhile_suffix _).sublist.length_le
    _ = (l.dropWhile isPySpace).length := by rw [List.length_reverse]
    _ ≤ l.length := (List.dropWhile_suffix _).sublist.length_le

/-! ## Claim C3: quality score -/

/-- Modelled from the spec's wording, for comparison with the code: "+2 if
the price is present and non-default", where the default price is the
extraction sentinel `价格面议` (the only default the pipeline ever produces);
the other four terms coincide with the code's conditions. -/
def quality_score_spec (p : ProductInfo) : Nat :=
  (if p.title ≠ [] ∧ p.title ≠ sentinelTitle ∧ 5 < p.title.length then 3 else 0) +
  (if p.price ≠ [] ∧ p.price ≠ sentinelPrice then 2 else 0) +
  (if p.images ≠ [] then 3 else 0) +
  (if p.description ≠ [] ∧ 10 < p.description.length then 1 else 0) +
  (if p.specifications ≠ [] then 1 else 0)

/-- A record whose price is the extraction default `价格面议` and whose other
fields are all absent. -/
def cexRecC3 : ProductInfo :=
  { url := [], product_id := none, title := [], price := sentinelPrice,
    images := [], description := [], specifications := [], scraped_at := [] }

/-- C3, counterexample: on a record whose price is the pipeline's default
sentinel `价格面议`, the code still awards the +2 price points (its check
compares against `"N/A"`, which the price extractor never returns), so the
computed score (2) differs from the claimed sum (0): the claim's "+2 if the
price is present and non-default" is false of the code. -/
theorem c3_counterexample :
    (quality_eval cexRecC3).1 = 2 ∧ quality_score_spec cexRecC3 = 0 ∧
    (quality_eval cexRecC3).1 ≠ quality_score_spec cexRecC3 := by decide

/-- C3, amended: the score is the sum of the five indicator terms exactly as
the code tests them — the price term tests `price ≠ "N/A"` (not "price
non-default": the extraction default `价格面议` also earns the +2) — and the
score always lies in `[0, 10]`. -/
theorem c3_quality_score_amended (p : ProductInfo) :
    (quality_eval p).1 =
      (if p.title ≠ [] ∧ p.title ≠ sentinelTitle ∧ 5 < p.title.length then 3 else 0) +
      (if p.price ≠ [] ∧ p.price ≠ "N/A".data then 2 else 0) +
      (if p.images ≠ [] then 3 else 0) +
      (if p.description ≠ [] ∧ 10 < p.description.length then 1 else 0) +
      (if p.specifications ≠ [] then 1 else 0) ∧
    (quality_eval p).1 ≤ 10 := by
  have h : (quality_eval p).1 =
      (if p.title ≠ [] ∧ p.title ≠ sentinelTitle ∧ 5 < p.title.length then 3 else 0) +
      (if p.price ≠ [] ∧ p.price ≠ "N/A".data then 2 else 0) +
      (if p.images ≠ [] then 3 else 0) +
      (if p.description ≠ [] ∧ 10 < p.description.length then 1 else 0) +
      (if p.specifications ≠ [] then 1 else 0) := by
    simp only [quality_eval, Bool.and_eq_true, Bool.not_eq_true', List.isEmpty_iff,
      decide_eq_true_eq, List.isEmpty_eq_false, ne_eq]
    split_ifs <;> simp_all
  refine ⟨h, ?_⟩
  rw [h]
  split_ifs <;> omega

/-! ## Claim C5: invalid URLs -/

/-- C5: a URL matching none of the three accepted patterns yields the error
record `无效的1688商品链接格式` with an empty network-call trace (no fetch is
attempted), through the entry point. -/
theorem c5_invalid_url_no_fetch (w : World) (url : Str)
    (ho : w.outerExc = none) (hv : validate_url url = false) :
    scrape_1688_product w url =
      (.err errInvalidUrl
        (.extractionFailed url "extraction_failed".data hintExtraction true), []) := by
  simp [scrape_1688_product, ho, scrape_product, hv]

/-- A world with no reachable documents and no exceptions. -/
def wQuiet : World :=
  { fetch := fun _ => none, now := [], assembleExc := none, outerExc := none }

/-- C5, witness: the spec's Scenario B input `"not-a-url"`. -/
theorem c5_witness :
    wQuiet.outerExc = none ∧ validate_url "not-a-url".data = false ∧
    scrape_1688_product wQuiet "not-a-url".data =
      (.err errInvalidUrl
        (.extractionFailed "not-a-url".data "extraction_failed".data hintExtraction true), []) :=
  ⟨rfl, by decide, c5_invalid_url_no_fetch wQuiet "not-a-url".data rfl (by decide)⟩

/-! ## Claim C9: the exception boundary -/

/-- C9: an exception raised anywhere inside the body of the entry point's
catch-all `try` is converted into an error record whose message embeds the
exception text and whose debug information carries the exception's class name
and the fixed remediation hint; being total, the function lets no exception
escape to the caller. -/
theorem c9_exception_boundary (w : World) (url : Str) (e : PyExc)
    (h : w.outerExc = some e) :
    scrape_1688_product w url =
      (.err ("抓取异常: ".data ++ e.msg)
        (.exception url e.name hintException true), []) := by
  simp [scrape_1688_product, h]

/-- A world in which the pipeline raises a `ConnectionError`. -/
def wExc : World :=
  { fetch := fun _ => none, now := [],
    assembleExc := none,
    outerExc := some ⟨"ConnectionError".data, "boom".data⟩ }

/-- C9, witness: the converted record of a concrete exception. -/
theorem c9_witness :
    wExc.outerExc = some ⟨"ConnectionError".data, "boom".data⟩ ∧
    scrape_1688_product wExc "https://detail.1688.com/offer/1.html".data =
      (.err ("抓取异常: boom".data)
        (.exception "https://detail.1688.com/offer/1.html".data "ConnectionError".data
          hintException true), []) :=
  ⟨rfl, c9_exception_boundary wExc _ _ rfl⟩

/-! ## Claim C6: what validation accepts -/

/-- C6, counterexample: `https://evil.com/x.1688.com/offer` is accepted by
`validate_url` (through the third pattern, whose leading `.*` may cross the
hostname), yet its hostname `evil.com` is not in the `1688.com` domain: the
claim's "every accepted URL's hostname is a host within the 1688.com domain"
is false. -/
theorem c6_counterexample :
    validate_url "https://evil.com/x.1688.com/offer".data = true ∧
    urlHost "https://evil.com/x.1688.com/offer".data = "evil.com".data ∧
    inDomain1688 (urlHost "https://evil.com/x.1688.com/offer".data) = false := by
  decide

/-- C6, amended: every accepted URL matches one of the three patterns; a URL
accepted by the desktop or mobile pattern has hostname `detail.1688.com` or
`m.1688.com` respectively, but the generic third pattern only requires
`.1688.com/` to occur as a substring somewhere after the scheme, so an
accepted URL's hostname need not lie within the `1688.com` domain. -/
theorem c6_accepted_urls :
    (∀ u, validate_url u = true →
      matchesDesktopPat u = true ∨ matchesMobilePat u = true ∨ matchesGenericPat u = true) ∧
    (∀ u, matchesDesktopPat u = true → urlHost u = "detail.1688.com".data) ∧
    (∀ u, matchesMobilePat u = true → urlHost u = "m.1688.com".data) := by
  refine ⟨fun u hu => ?_, fun u h => ?_, fun u h => ?_⟩
  · simpa [validate_url, Bool.or_eq_true, or_assoc] using hu
  · unfold matchesDesktopPat at h
    by_cases h1 : isPre "http://detail.1688.com/offer/".data u = true
    · obtain ⟨t, rfl⟩ := isPre_exists h1
      exact (rfl : urlHost ("http://detail.1688.com/offer/".data ++ t) = _)
    · by_cases h2 : isPre "https://detail.1688.com/offer/".data u = true
      · obtain ⟨t, rfl⟩ := isPre_exists h2
        exact (rfl : urlHost ("https://detail.1688.com/offer/".data ++ t) = _)
      · simp [h1, h2] at h
  · unfold matchesMobilePat at h
    by_cases h1 : isPre "http://m.1688.com/offer/".data u = true
    · obtain ⟨t, rfl⟩ := isPre_exists h1
      exact (rfl : urlHost ("http://m.1688.com/offer/".data ++ t) = _)
    · by_cases h2 : isPre "https://m.1688.com/offer/".data u = true
      · obtain ⟨t, rfl⟩ := isPre_exists h2
        exact (rfl : urlHost ("https://m.1688.com/offer/".data ++ t) = _)
      · simp [h1, h2] at h

/-- C6, witness: the amended theorem applied at a concrete accepted desktop
URL. -/
theorem c6_witness :
    matchesDesktopPat "https://detail.1688.com/offer/793064484013.html".data = true ∧
    urlHost "https://detail.1688.com/offer/793064484013.html".data = "detail.1688.com".data :=
  ⟨by decide, c6_accepted_urls.2.1 _ (by decide)⟩

/-! ## Claim C10: product-id extraction -/

theorem dropWhile_head_false {p : Char → Bool} :
    ∀ (l : Str) {e : Char} {es : Str}, l.dropWhile p = e :: es → p e = false := by
  intro l
  induction l with
  | nil => intro e es h; simp [List.dropWhile] at h
  | cons a as ih =>
    intro e es h
    rw [List.dropWhile_cons] at h
    split at h
    · exact ih h
    · cases h; simpa using ‹¬ p a = true›

/-- Soundness of the `offer/(\d+)` scan, including leftmostness: a returned
id is a non-empty maximal digit run sitting right after an occurrence of
`offer/`, and no digit-headed `offer/` occurrence starts earlier. -/
theorem epid_sound :
    ∀ (u : Str) (s : Str), extract_product_id u = some s →
      ∃ pre post, u = pre ++ "offer/".data ++ s ++ post ∧ s ≠ [] ∧
        (∀ c ∈ s, c.isDigit = true) ∧ headDigit post = false ∧
        ∀ pre' post', u = pre' ++ "offer/".data ++ post' → headDigit post' = true →
          pre.length ≤ pre'.length := by
  intro u
  induction u with
  | nil => intro s h; simp [extract_product_id] at h
  | cons c rest ih =>
    intro s h
    rw [extract_product_id] at h
    by_cases hg : (isPre "offer/".data (c :: rest) && headDigit ((c :: rest).drop 6)) = true
    · rw [if_pos hg] at h
      rw [Bool.and_eq_true] at hg
      obtain ⟨hp, hd⟩ := hg
      obtain ⟨t, ht⟩ := isPre_exists hp
      have hdrop : (c :: rest).drop 6 = t := by
        rw [ht]; rfl
      rw [hdrop] at hd h
      injection h with h
      refine ⟨[], t.dropWhile Char.isDigit, ?_, ?_, ?_, ?_, fun pre' post' _ _ => Nat.zero_le _⟩
      · rw [← h, List.nil_append, ht, List.append_assoc,
          List.takeWhile_append_dropWhile Char.isDigit t]
      · rw [← h]
        cases t with
        | nil => simp [headDigit] at hd
        | cons e es =>
          simp only [headDigit] at hd
          simp [List.takeWhile_cons, hd]
      · intro x hx
        rw [← h] at hx
        exact List.mem_takeWhile_imp hx
      · cases hpost : t.dropWhile Char.isDigit with
        | nil => rfl
        | cons e es =>
          simp only [headDigit]
          exact dropWhile_head_false t hpost
    · rw [if_neg hg] at h
      obtain ⟨pre, post, hdec, hs, hdig, hpost, hleft⟩ := ih s h
      refine ⟨c :: pre, post, by simp [hdec], hs, hdig, hpost, ?_⟩
      intro pre' post' hu hd'
      cases pre' with
      | nil =>
        exfalso
        apply hg
        rw [List.nil_append] at hu
        rw [Bool.and_eq_true]
        refine ⟨by rw [hu]; exact isPre_append _ _, ?_⟩
        have hdr : List.drop 6 ("offer/".data ++ post') = post' := rfl
        rw [hu, hdr]
        exact hd'
      | cons c' pre'' =>
        rw [List.cons_append] at hu
        obtain ⟨hc, hrest⟩ := List.cons_eq_cons.mp hu
        have := hleft pre'' post' hrest hd'
        simp only [List.length_cons]
        omega

/-- Completeness of the `offer/(\d+)` scan: when `offer/` is nowhere followed
by a digit, the extraction returns `none` (in particular when `offer/` does
not occur at all). -/
theorem epid_none :
    ∀ (u : Str),
      (∀ pre post, u = pre ++ "offer/".data ++ post → headDigit post = false) →
      extract_product_id u = none := by
  intro u
  induction u with
  | nil => intro _; rfl
  | cons c rest ih =>
    intro h
    rw [extract_product_id]
    have hg : ¬ ((isPre "offer/".data (c :: rest) && headDigit ((c :: rest).drop 6)) = true) := by
      intro hg
      rw [Bool.and_eq_true] at hg
      obtain ⟨hp, hd⟩ := hg
      obtain ⟨t, ht⟩ := isPre_exists hp
      have hdrop : (c :: rest).drop 6 = t := by rw [ht]; rfl
      rw [hdrop] at hd
      rw [h [] t (by simpa using ht)] at hd
      exact Bool.false_ne_true hd
    rw [if_neg hg]
    apply ih
    intro pre post hdec
    exact h (c :: pre) post (by simp [hdec])

/-- The scan at an `offer/` occurrence whose follower is a digit: the maximal
digit run is returned. -/
theorem epid_at_offer (c : Char) (rest : Str) (h : c.isDigit = true) :
    extract_product_id ("offer/".data ++ c :: rest) =
      some ((c :: rest).takeWhile Char.isDigit) := by
  have e : extract_product_id ('o' :: 'f' :: 'f' :: 'e' :: 'r' :: '/' :: c :: rest) =
      if (isPre "offer/".data ('o' :: 'f' :: 'f' :: 'e' :: 'r' :: '/' :: c :: rest) &&
          headDigit (c :: rest)) = true then
        some ((c :: rest).takeWhile Char.isDigit)
      else extract_product_id ('f' :: 'f' :: 'e' :: 'r' :: '/' :: c :: rest) := rfl
  have hpre : isPre "offer/".data ('o' :: 'f' :: 'f' :: 'e' :: 'r' :: '/' :: c :: rest) = true := rfl
  show extract_product_id ('o' :: 'f' :: 'f' :: 'e' :: 'r' :: '/' :: c :: rest) = _
  rw [e, hpre]
  simp [headDigit, h]

/-- The claimed consequence for desktop- and mobile-pattern URLs: a non-null,
non-empty, all-digit product id. -/
theorem epid_of_desktop_or_mobile (u : Str)
    (h : matchesDesktopPat u = true ∨ matchesMobilePat u = true) :
    ∃ s, extract_product_id u = some s ∧ s ≠ [] ∧ ∀ c ∈ s, c.isDigit = true := by
  have skip1 : ∀ t, extract_product_id ("http://detail.1688.com/".data ++ t) =
      extract_product_id t := fun t => rfl
  have skip2 : ∀ t, extract_product_id ("https://detail.1688.com/".data ++ t) =
      extract_product_id t := fun t => rfl
  have skip3 : ∀ t, extract_product_id ("http://m.1688.com/".data ++ t) =
      extract_product_id t := fun t => rfl
  have skip4 : ∀ t, extract_product_id ("https://m.1688.com/".data ++ t) =
      extract_product_id t := fun t => rfl
  have main : ∀ r, digitsHtml r = true →
      ∃ s, extract_product_id ("offer/".data ++ r) = some s ∧ s ≠ [] ∧
        ∀ c ∈ s, c.isDigit = true := by
    intro r hr
    unfold digitsHtml at hr
    rw [Bool.and_eq_true] at hr
    have hne := hr.1
    cases r with
    | nil => simp at hne
    | cons e es =>
      have he : e.isDigit = true := by
        by_contra hbad
        rw [List.takeWhile_cons] at hne
        simp only [Bool.not_eq_true] at hbad
        rw [hbad] at hne
        simp at hne
      refine ⟨(e :: es).takeWhile Char.isDigit, epid_at_offer e es he, ?_, ?_⟩
      · rw [List.takeWhile_cons, he]; simp
      · intro x hx; exact List.mem_takeWhile_imp hx
  rcases h with h | h
  · unfold matchesDesktopPat at h
    by_cases h1 : isPre "http://detail.1688.com/offer/".data u = true
    · obtain ⟨t, rfl⟩ := isPre_exists h1
      rw [if_pos h1] at h
      have hsplit : "http://detail.1688.com/offer/".data ++ t =
          "http://detail.1688.com/".data ++ ("offer/".data ++ t) := rfl
      have hd : ("http://detail.1688.com/offer/".data ++ t).drop 29 = t := rfl
      rw [hd] at h
      rw [hsplit, skip1]
      exact main t h
    · rw [if_neg h1] at h
      by_cases h2 : isPre "https://detail.1688.com/offer/".data u = true
      · obtain ⟨t, rfl⟩ := isPre_exists h2
        rw [if_pos h2] at h
        have hsplit : "https://detail.1688.com/offer/".data ++ t =
            "https://detail.1688.com/".data ++ ("offer/".data ++ t) := rfl
        have hd : ("https://detail.1688.com/offer/".data ++ t).drop 30 = t := rfl
        rw [hd] at h
        rw [hsplit, skip2]
        exact main t h
      · rw [if_neg h2] at h
        exact absurd h (by simp)
  · unfold matchesMobilePat at h
    by_cases h1 : isPre "http://m.1688.com/offer/".data u = true
    · obtain ⟨t, rfl⟩ := isPre_exists h1
      rw [if_pos h1] at h
      have hsplit : "http://m.1688.com/offer/".data ++ t =
          "http://m.1688.com/".data ++ ("offer/".data ++ t) := rfl
      have hd : ("http://m.1688.com/offer/".data ++ t).drop 24 = t := rfl
      rw [hd] at h
      rw [hsplit, skip3]
      exact main t h
    · rw [if_neg h1] at h
      by_cases h2 : isPre "https://m.1688.com/offer/".data u = true
      · obtain ⟨t, rfl⟩ := isPre_exists h2
        rw [if_pos h2] at h
        have hsplit : "https://m.1688.com/offer/".data ++ t =
            "https://m.1688.com/".data ++ ("offer/".data ++ t) := rfl
        have hd : ("https://m.1688.com/offer/".data ++ t).drop 25 = t := rfl
        rw [hd] at h
        rw [hsplit, skip4]
        exact main t h
      · rw [if_neg h2] at h
        exact absurd h (by simp)

/-- C10: product-id extraction returns the digit run immediately following
the leftmost digit-headed occurrence of `offer/` (soundness with
leftmostness), returns null when no digit-headed occurrence exists
(completeness), yields a non-null all-digit id on every desktop- or
mobile-pattern URL, and can yield null on a URL accepted only by the generic
third pattern (`https://x.1688.com/offer`). -/
theorem c10_product_id :
    (∀ u s, extract_product_id u = some s →
      ∃ pre post, u = pre ++ "offer/".data ++ s ++ post ∧ s ≠ [] ∧
        (∀ c ∈ s, c.isDigit = true) ∧ headDigit post = false ∧
        ∀ pre' post', u = pre' ++ "offer/".data ++ post' → headDigit post' = true →
          pre.length ≤ pre'.length) ∧
    (∀ u, (∀ pre post, u = pre ++ "offer/".data ++ post → headDigit post = false) →
      extract_product_id u = none) ∧
    (∀ u, matchesDesktopPat u = true ∨ matchesMobilePat u = true →
      ∃ s, extract_product_id u = some s ∧ s ≠ [] ∧ ∀ c ∈ s, c.isDigit = true) ∧
    (validate_url "https://x.1688.com/offer".data = true ∧
      matchesDesktopPat "https://x.1688.com/offer".data = false ∧
      matchesMobilePat "https://x.1688.com/offer".data = false ∧
      extract_product_id "https://x.1688.com/offer".data = none) :=
  ⟨epid_sound, epid_none, epid_of_desktop_or_mobile, by decide⟩

/-- C10, witness: the desktop/mobile consequence applied at a concrete
desktop URL. -/
theorem c10_witness :
    (matchesDesktopPat "https://detail.1688.com/offer/793064484013.html".data = true ∨
      matchesMobilePat "https://detail.1688.com/offer/793064484013.html".data = true) ∧
    ∃ s, extract_product_id "https://detail.1688.com/offer/793064484013.html".data = some s ∧
      s ≠ [] ∧ ∀ c ∈ s, c.isDigit = true :=
  ⟨Or.inl (by decide), c10_product_id.2.2.1 _ (Or.inl (by decide))⟩

/-! ## Claim C8: specification bounds -/

/-- The bound invariant of the specification accumulator. -/
def SpecBounded (m : List (Str × Str)) : Prop :=
  ∀ p ∈ m, p.1.length ≤ 50 ∧ p.2.length ≤ 200

theorem specInsert_bounded {m : List (Str × Str)} {k v : Str}
    (hm : SpecBounded m) (hk : k.length ≤ 50) (hv : v.length ≤ 200) :
    SpecBounded (specInsert m k v) := by
  unfold specInsert
  split
  · intro p hp
    obtain ⟨q, hq, rfl⟩ := List.mem_map.1 hp
    by_cases hqk : (q.1 == k) = true
    · simp only [hqk, if_true]
      exact ⟨hk, hv⟩
    · simp only [hqk, if_false]
      exact hm q hq
  · intro p hp
    rcases List.mem_append.1 hp with hp | hp
    · exact hm p hp
    · rcases List.mem_singleton.1 hp with rfl
      exact ⟨hk, hv⟩

theorem specTablePhase_bounded {s0 : List (Str × Str)} (hs : SpecBounded s0)
    (tables : List (List (List Str))) : SpecBounded (specTablePhase s0 tables) := by
  unfold specTablePhase
  refine foldl_pres (fun s rows hsb => ?_) tables s0 hs
  refine foldl_pres (fun s cells hsb => ?_) rows s hsb
  match cells with
  | [] => exact hsb
  | [_] => exact hsb
  | k :: v :: _ =>
    simp only
    split
    · next hcond =>
      simp only [Bool.and_eq_true, decide_eq_true_eq] at hcond
      exact specInsert_bounded hsb (by omega) (by omega)
    · exact hsb

theorem specDlPhase_bounded {s0 : List (Str × Str)} (hs : SpecBounded s0)
    (dls : List (Option Str × Option Str)) : SpecBounded (specDlPhase s0 dls) := by
  unfold specDlPhase
  refine foldl_pres (fun s dl hsb => ?_) dls s0 hs
  match dl with
  | (some k, some v) =>
    simp only
    split
    · next hcond =>
      simp only [Bool.and_eq_true, decide_eq_true_eq] at hcond
      exact specInsert_bounded hsb (by omega) (by omega)
    · exact hsb
  | (some _, none) => exact hsb
  | (none, _) => exact hsb

theorem splitBraceFirst_length_le : ∀ v : Str, (splitBraceFirst v).length ≤ v.length := by
  intro v
  induction v with
  | nil => simp [splitBraceFirst]
  | cons c rest ih =>
    rw [splitBraceFirst]
    split
    · simp
    · simpa using ih

theorem stripTrailingBraceWs_length_le (v : Str) :
    (stripTrailingBraceWs v).length ≤ v.length := by
  unfold stripTrailingBraceWs
  cases hsplit : v.reverse.drop (v.reverse.takeWhile isPySpace).length with
  | nil => simp [hsplit]
  | cons c r =>
    simp only [hsplit]
    split
    · have h1 : (c :: r).length ≤ v.reverse.length := by
        rw [← hsplit]
        exact (List.drop_sublist _ _).length_le
      rw [List.length_reverse] at h1
      rw [List.length_reverse]
      simp only [List.length_cons] at h1
      omega
    · exact Nat.le_refl _

theorem cleanSpecValue_length_le (v : Str) : (cleanSpecValue v).length ≤ v.length := by
  unfold cleanSpecValue
  have h1 : (v.filter fun c => !(c == '"' || c == '\\')).length ≤ v.length :=
    List.length_filter_le _ _
  have h2 : ∀ w : Str,
      ((if containsSub jsonNoiseNeedle1 w || containsSub jsonNoiseNeedle2 w then
        splitBraceFirst w else w)).length ≤ w.length := by
    intro w
    split
    · exact splitBraceFirst_length_le w
    · exact Nat.le_refl _
  refine le_trans (le_trans (le_trans ?_ (stripTrailingBraceWs_length_le _)) (h2 _)) h1
  exact ((List.dropWhile_suffix _).sublist).length_le

theorem specScriptItem_bounded {s0 : List (Str × Str)} (hs : SpecBounded s0)
    (item : Json) : SpecBounded (specScriptItem s0 item) := by
  unfold specScriptItem
  match item with
  | .str _ => exact hs
  | .arr _ => exact hs
  | .obj kvs =>
    simp only
    have hspecs1 : SpecBounded
        (if (!(pyStrip (strGet kvs "name".data)).isEmpty &&
             !(pyStrip (strGet kvs "value".data)).isEmpty &&
             decide ((pyStrip (strGet kvs "name".data)).length < 50) &&
             decide ((pyStrip (strGet kvs "value".data)).length < 200)) = true then
          if (!((pyStrip (strGet kvs "name".data)).filter fun c =>
                !(c == '"' || c == '\\')).isEmpty &&
              !(cleanSpecValue (pyStrip (strGet kvs "value".data))).isEmpty) = true then
            specInsert s0
              ((pyStrip (strGet kvs "name".data)).filter fun c => !(c == '"' || c == '\\'))
              (cleanSpecValue (pyStrip (strGet kvs "value".data)))
          else s0
        else s0) := by
      split
      · next hcond =>
        rw [Bool.and_eq_true, Bool.and_eq_true, Bool.and_eq_true] at hcond
        obtain ⟨⟨⟨_, _⟩, h50⟩, h200⟩ := hcond
        have h50' := of_decide_eq_true h50
        have h200' := of_decide_eq_true h200
        split
        · exact specInsert_bounded hs
            (le_trans (List.length_filter_le _ _) (by omega))
            (le_trans (cleanSpecValue_length_le _) (by omega))
        · exact hs
      · exact hs
    refine foldl_pres ?_ _ _ hspecs1
    intro s kf hsb
    refine foldl_pres ?_ _ _ hsb
    intro s' vf hsb'
    match strField kvs kf, strField kvs vf with
    | some ks, some vs =>
      simp only
      split
      · next hcond =>
        rw [Bool.and_eq_true, Bool.and_eq_true, Bool.and_eq_true] at hcond
        obtain ⟨⟨⟨_, _⟩, h50⟩, h200⟩ := hcond
        have h50' := of_decide_eq_true h50
        have h200' := of_decide_eq_true h200
        exact specInsert_bounded hsb' (by omega) (by omega)
      · exact hsb'
    | some _, none => exact hsb'
    | none, _ => exact hsb'

theorem specScriptPhase_bounded {s0 : List (Str × Str)} (hs : SpecBounded s0)
    (scripts : List Script) : SpecBounded (specScriptPhase s0 scripts) := by
  unfold specScriptPhase
  refine foldl_pres ?_ scripts s0 hs
  intro s sc hsb
  simp only
  have harr : SpecBounded
      (sc.specArrays.foldl (fun specs arr => arr.foldl specScriptItem specs) s) := by
    refine foldl_pres ?_ sc.specArrays s hsb
    intro s' arr hsb'
    refine foldl_pres ?_ arr s' hsb'
    intro s'' it hsb''
    exact specScriptItem_bounded hsb'' it
  refine foldl_pres ?_ sc.specSimpleMatches _ harr
  intro s' p hsb'
  split
  · next hcond =>
    rw [Bool.and_eq_true, Bool.and_eq_true, Bool.and_eq_true] at hcond
    obtain ⟨⟨⟨_, _⟩, h50⟩, h200⟩ := hcond
    have h50' := of_decide_eq_true h50
    have h200' := of_decide_eq_true h200
    exact specInsert_bounded hsb' (by omega) (by omega)
  · exact hsb'

theorem specTextPhase_bounded {s0 : List (Str × Str)} (hs : SpecBounded s0)
    (kvs : List (Str × Str)) : SpecBounded (specTextPhase s0 kvs) := by
  unfold specTextPhase
  refine foldl_pres ?_ kvs s0 hs
  intro s p hsb
  simp only
  split
  · split
    · next hcond =>
      rw [Bool.and_eq_true] at hcond
      obtain ⟨h1, h2⟩ := hcond
      rw [Bool.and_eq_true] at h1
      obtain ⟨h20, h100⟩ := h1
      have h20' := of_decide_eq_true h20
      have h100' := of_decide_eq_true h100
      exact specInsert_bounded hsb (by omega) (by omega)
    · exact hsb
  · exact hsb

/-- C8: every entry of the extracted specification mapping has a key of at
most 50 characters and a value of at most 200 characters, across all four
accumulation sources and after the JSON-artifact cleanup (each insertion site
checks the lengths before inserting, and every cleanup step only shortens its
string). -/
theorem c8_spec_bounds (d : Doc) :
    ∀ p ∈ extract_specifications d, p.1.length ≤ 50 ∧ p.2.length ≤ 200 := by
  unfold extract_specifications
  exact specTextPhase_bounded
    (specScriptPhase_bounded
      (specDlPhase_bounded
        (specTablePhase_bounded (fun p hp => absurd hp (List.not_mem_nil p)) d.specTables)
        d.specDls)
      d.scripts)
    d.pageKvMatches

/-- A document carrying one concrete specification table entry. -/
def wDocC8 : Doc := { emptyDoc with specTables := [[["材质".data, "树脂".data]]] }

/-- C8, witness: the bound theorem applied to a concrete extracted entry. -/
theorem c8_witness :
    ("材质".data, "树脂".data) ∈ extract_specifications wDocC8 ∧
    ("材质".data).length ≤ 50 ∧ ("树脂".data).length ≤ 200 :=
  ⟨by decide, c8_spec_bounds wDocC8 ("材质".data, "树脂".data) (by decide)⟩

/-! ## Claim C4: image list shape -/

theorem urljoin_http {b : Str}
    (hb : isPre "http://".data b = true ∨ isPre "https://".data b = true) (u : Str) :
    isPre "http".data (urljoin b u) = true := by
  have h1 : ∀ t u : Str, isPre "http".data (urljoin ("http://".data ++ t) u) = true :=
    fun _ _ => rfl
  have h2 : ∀ t u : Str, isPre "http".data (urljoin ("https://".data ++ t) u) = true :=
    fun _ _ => rfl
  rcases hb with hb | hb
  · obtain ⟨t, rfl⟩ := isPre_exists hb
    exact h1 t u
  · obtain ⟨t, rfl⟩ := isPre_exists hb
    exact h2 t u

theorem resolveImgUrl_http {b u : Str}
    (hb : isPre "http://".data b = true ∨ isPre "https://".data b = true)
    (hu : isPre "http".data u = true ∨ isPre "/".data u = true) :
    isPre "http".data (resolveImgUrl b u) = true := by
  unfold resolveImgUrl
  by_cases h2 : isPre "//".data u = true
  · rw [if_pos h2]
    obtain ⟨t, rfl⟩ := isPre_exists h2
    rfl
  · rw [if_neg h2]
    by_cases h1 : isPre "/".data u = true
    · rw [if_pos h1]
      exact urljoin_http hb u
    · rw [if_neg h1]
      rcases hu with hu | hu
      · exact hu
      · exact absurd hu h1

theorem img_fold_http {b : Str}
    (hb : isPre "http://".data b = true ∨ isPre "https://".data b = true) :
    ∀ (imgs : List ImgTag) (acc : List Str),
      (∀ i ∈ imgs, ∀ u, pickImgUrl i = some u → u ≠ [] →
        isPre "http".data u = true ∨ isPre "/".data u = true) →
      (∀ u ∈ acc, isPre "http".data u = true) →
      ∀ u ∈ imgs.foldl (fun a i =>
        match pickImgUrl i with
        | some u =>
          if u.isEmpty then a
          else
            let r := resolveImgUrl b u
            if is_valid_image_url r then a ++ [r] else a
        | none => a) acc, isPre "http".data u = true := by
  intro imgs
  induction imgs with
  | nil => intro acc _ hacc; exact hacc
  | cons i rest ih =>
    intro acc hsel hacc
    rw [List.foldl_cons]
    refine ih _ (fun j hj => hsel j (List.mem_cons_of_mem _ hj)) ?_
    cases hp : pickImgUrl i with
    | none => simpa [hp] using hacc
    | some u =>
      simp only [hp]
      by_cases hemp : u.isEmpty = true
      · simpa [hemp] using hacc
      · simp only [hemp, if_false]
        have hne : u ≠ [] := by
          intro h; rw [h] at hemp; exact hemp rfl
        have hu := hsel i (List.mem_cons_self _ _) u hp hne
        by_cases hval : is_valid_image_url (resolveImgUrl b u) = true
        · simp only [hval, if_true]
          intro x hx
          rcases List.mem_append.1 hx with hx | hx
          · exact hacc x hx
          · rcases List.mem_singleton.1 hx with rfl
            exact resolveImgUrl_http hb hu
        · simp only [hval, if_false]
          exact hacc

theorem scr_fold_http :
    ∀ (scripts : List Script) (acc : List Str),
      (∀ sc ∈ scripts, ∀ m ∈ sc.imageMatches, isPre "http".data m = true) →
      (∀ u ∈ acc, isPre "http".data u = true) →
      ∀ u ∈ scripts.foldl (fun acc sc =>
        sc.imageMatches.foldl (fun a m =>
          if is_valid_image_url m then a ++ [m] else a) acc) acc,
        isPre "http".data u = true := by
  have inner : ∀ (ms : List Str) (acc : List Str),
      (∀ m ∈ ms, isPre "http".data m = true) →
      (∀ u ∈ acc, isPre "http".data u = true) →
      ∀ u ∈ ms.foldl (fun a m => if is_valid_image_url m then a ++ [m] else a) acc,
        isPre "http".data u = true := by
    intro ms
    induction ms with
    | nil => intro acc _ hacc; exact hacc
    | cons m rest ih =>
      intro acc hms hacc
      rw [List.foldl_cons]
      refine ih _ (fun x hx => hms x (List.mem_cons_of_mem _ hx)) ?_
      by_cases hval : is_valid_image_url m = true
      · simp only [hval, if_true]
        intro x hx
        rcases List.mem_append.1 hx with hx | hx
        · exact hacc x hx
        · have hx' := List.mem_singleton.1 hx
          subst hx'
          exact hms _ (List.mem_cons_self _ _)
      · simp only [hval, if_false]
        exact hacc
  intro scripts
  induction scripts with
  | nil => intro acc _ hacc; exact hacc
  | cons sc rest ih =>
    intro acc hscr hacc
    rw [List.foldl_cons]
    refine ih _ (fun x hx => hscr x (List.mem_cons_of_mem _ hx)) ?_
    exact inner _ _ (hscr sc (List.mem_cons_self _ _)) hacc

/-- C4, counterexample: an `<img>` whose `src` is the plain relative name
`abcdefgh.jpg` (no leading slash) is neither joined with the base nor
filtered out, so the extracted image list contains an entry that does not
start with `http`: the claim's "every entry starts with 'http'" is false. -/
theorem c4_counterexample :
    extract_images { emptyDoc with imgSelectorImgs := [[⟨some "abcdefgh.jpg".data, none, none⟩]] }
        "https://detail.1688.com/offer/1.html".data = ["abcdefgh.jpg".data] ∧
    ¬ (∀ u ∈ extract_images
        { emptyDoc with imgSelectorImgs := [[⟨some "abcdefgh.jpg".data, none, none⟩]] }
        "https://detail.1688.com/offer/1.html".data, isPre "http".data u = true) := by
  constructor
  · decide
  · decide

/-- C4, amended: for every document and base URL the image list is bounded by
10, duplicate-free, and an order-preserving subsequence of the candidate
list; and every entry starts with `http` provided the base URL has an
`http(s)://` scheme, every selector-derived candidate starts with `http` or
`/` (protocol-relative `//` included), and every script-derived match starts
with `http` (which the image regex `https?://…` guarantees on real
documents).  A selector candidate that is relative without a leading slash is
kept verbatim and need not start with `http`. -/
theorem c4_images_amended (d : Doc) (b : Str) :
    ((extract_images d b).length ≤ 10 ∧ (extract_images d b).Nodup ∧
      (extract_images d b).Sublist (imageCandidates d b)) ∧
    ((isPre "http://".data b = true ∨ isPre "https://".data b = true) →
     (∀ imgs ∈ d.imgSelectorImgs, ∀ i ∈ imgs, ∀ u, pickImgUrl i = some u → u ≠ [] →
       isPre "http".data u = true ∨ isPre "/".data u = true) →
     (∀ sc ∈ d.scripts, ∀ m ∈ sc.imageMatches, isPre "http".data m = true) →
     ∀ u ∈ extract_images d b, isPre "http".data u = true) := by
  constructor
  · refine ⟨List.length_take_le _ _, ?_, ?_⟩
    · exact (dedupFirst_nodup _).sublist (List.take_sublist _ _)
    · exact (List.take_sublist _ _).trans (dedupFirst_sublist _)
  · intro hb hsel hscr u hu
    have hu1 : u ∈ dedupFirst (imageCandidates d b) :=
      (List.take_sublist _ _).subset hu
    have hu2 : u ∈ imageCandidates d b := dedupFirstAux_subset hu1
    revert hu2
    unfold imageCandidates
    intro hu2
    refine scr_fold_http d.scripts _ hscr ?_ u hu2
    have hfold : ∀ (sels : List (List ImgTag)) (acc : List Str),
        (∀ imgs ∈ sels, ∀ i ∈ imgs, ∀ u, pickImgUrl i = some u → u ≠ [] →
          isPre "http".data u = true ∨ isPre "/".data u = true) →
        (∀ x ∈ acc, isPre "http".data x = true) →
        ∀ x ∈ sels.foldl (fun acc imgs =>
          imgs.foldl (fun a i =>
            match pickImgUrl i with
            | some u =>
              if u.isEmpty then a
              else
                let r := resolveImgUrl b u
                if is_valid_image_url r then a ++ [r] else a
            | none => a) acc) acc, isPre "http".data x = true := by
      intro sels
      induction sels with
      | nil => intro acc _ hacc; exact hacc
      | cons imgs rest ih =>
        intro acc hsels hacc
        rw [List.foldl_cons]
        refine ih _ (fun x hx => hsels x (List.mem_cons_of_mem _ hx)) ?_
        exact img_fold_http hb imgs acc (hsels imgs (List.mem_cons_self _ _)) hacc
    exact hfold d.imgSelectorImgs [] hsel (fun x hx => absurd hx (List.not_mem_nil x))

/-- A document with one script-derived image match. -/
def wDocC4 : Doc :=
  { emptyDoc with scripts :=
      [{ titleMatches := [], priceMatches := [],
         imageMatches := ["https://img.example.com/product1.jpg".data],
         descMatches := [], specArrays := [], specSimpleMatches := [] }] }

/-- C4, witness: the amended theorem applied at a concrete document and
base. -/
theorem c4_witness :
    (isPre "http://".data "https://detail.1688.com/offer/1.html".data = true ∨
      isPre "https://".data "https://detail.1688.com/offer/1.html".data = true) ∧
    ∀ u ∈ extract_images wDocC4 "https://detail.1688.com/offer/1.html".data,
      isPre "http".data u = true :=
  ⟨Or.inr (by decide),
    (c4_images_amended wDocC4 _).2 (Or.inr (by decide)) (by decide) (by decide)⟩

/-! ## Claim C7: non-empty defaults -/

theorem if_opt_eq {α : Type} {c : Prop} [Decidable c] {x r : α}
    (h : (if c then some x else none) = some r) : c ∧ x = r := by
  split at h
  · exact ⟨‹c›, Option.some.inj h⟩
  · exact absurd h (by simp)

theorem selTitlePhase_ne_nil {d : Doc} {t : Str} (h : selTitlePhase d = some t) :
    t ≠ [] := by
  unfold selTitlePhase at h
  obtain ⟨elems, _, h1⟩ := findSome?_exists h
  obtain ⟨x, _, h2⟩ := findSome?_exists h1
  obtain ⟨hc, rfl⟩ := if_opt_eq h2
  rw [Bool.and_eq_true, Bool.and_eq_true, Bool.and_eq_true] at hc
  have h5 : 5 < x.length := of_decide_eq_true hc.1.1.2
  exact List.ne_nil_of_length_pos (by omega)

theorem pageTitlePhase_ne_nil {d : Doc} {t : Str} (h : pageTitlePhase d = some t) :
    t ≠ [] := by
  unfold pageTitlePhase at h
  cases htag : d.titleTag with
  | none => rw [htag] at h; exact absurd h (by simp)
  | some raw =>
    rw [htag] at h
    simp only at h
    obtain ⟨hc, rfl⟩ := if_opt_eq h
    rw [Bool.and_eq_true] at hc
    have h5 := of_decide_eq_true hc.2
    exact List.ne_nil_of_length_pos (by omega)

theorem jsTitlePhase_ne_nil {d : Doc} {t : Str} (h : jsTitlePhase d = some t) :
    t ≠ [] := by
  unfold jsTitlePhase at h
  obtain ⟨sc, _, h1⟩ := findSome?_exists h
  obtain ⟨pat, _, h2⟩ := findSome?_exists h1
  obtain ⟨m, _, h3⟩ := findSome?_exists h2
  obtain ⟨hc, rfl⟩ := if_opt_eq h3
  rw [Bool.and_eq_true, Bool.and_eq_true] at hc
  have h5 : 5 < (pyStrip m).length := of_decide_eq_true hc.1.2
  exact List.ne_nil_of_length_pos (by omega)

theorem extract_title_ne_nil (d : Doc)
    (hn : ∀ j ∈ d.jsonLd, ∀ s, jsonLdName j = some s → s ≠ []) :
    extract_title d ≠ [] := by
  unfold extract_title
  cases h1 : selTitlePhase d with
  | some t => exact selTitlePhase_ne_nil h1
  | none =>
    cases h2 : pageTitlePhase d with
    | some t => exact pageTitlePhase_ne_nil h2
    | none =>
      cases h3 : d.jsonLd.findSome? jsonLdName with
      | some t =>
        obtain ⟨j, hj, hjn⟩ := findSome?_exists h3
        exact hn j hj t hjn
      | none =>
        cases h4 : jsTitlePhase d with
        | some t => exact jsTitlePhase_ne_nil h4
        | none => decide

theorem matchPriceAt_ne_nil {l m : Str} (h : matchPriceAt l = some m) : m ≠ [] := by
  unfold matchPriceAt at h
  dsimp only at h
  split at h
  · exact absurd h (by simp)
  · have hm := Option.some.inj h
    intro hmnil
    rw [hmnil] at hm
    have hlen := congrArg List.length hm
    simp only [List.length_append, List.length_cons, List.length_nil] at hlen
    omega

theorem searchPrice_ne_nil : ∀ {l m : Str}, searchPrice l = some m → m ≠ [] := by
  intro l
  induction l with
  | nil =>
    intro m h
    rw [searchPrice] at h
    cases hma : matchPriceAt [] with
    | some x => rw [hma] at h; exact matchPriceAt_ne_nil (hma.trans (congrArg some (Option.some.inj h)))
    | none => rw [hma] at h; exact absurd h (by simp)
  | cons c rest ih =>
    intro m h
    rw [searchPrice] at h
    cases hma : matchPriceAt (c :: rest) with
    | some x =>
      rw [hma] at h
      exact matchPriceAt_ne_nil (hma.trans (congrArg some (Option.some.inj h)))
    | none =>
      rw [hma] at h
      exact ih h

theorem head?_mem {α : Type} {l : List α} {x : α} (h : l.head? = some x) : x ∈ l := by
  cases l with
  | nil => simp at h
  | cons a as =>
    simp only [List.head?] at h
    rw [Option.some.inj h]
    exact List.mem_cons_self _ _

theorem extract_price_ne_nil (d : Doc)
    (hp : ∀ sc ∈ d.scripts, ∀ m ∈ sc.priceMatches, m ≠ []) :
    extract_price d ≠ [] := by
  unfold extract_price
  cases h1 : selPricePhase d with
  | some p =>
    unfold selPricePhase at h1
    obtain ⟨t?, _, h2⟩ := findSome?_exists h1
    cases t? with
    | some t => exact searchPrice_ne_nil h2
    | none => exact absurd h2 (by simp)
  | none =>
    cases h2 : d.scripts.findSome? (fun sc => sc.priceMatches.head?) with
    | some p =>
      obtain ⟨sc, hsc, h3⟩ := findSome?_exists h2
      exact hp sc hsc p (head?_mem h3)
    | none => decide

/-- C7, counterexample: a document whose only readable content is a JSON-LD
payload `{"name": ""}` makes `extract_title` return the empty string (the
JSON-LD branch returns the `name` value without any length check): the
claim's "title is never the empty string" is false. -/
theorem c7_counterexample :
    extract_title { emptyDoc with jsonLd := [Json.obj [("name".data, Json.str [])]] } = [] := by
  decide

/-- C7, amended: the price is never the empty string (every selector match
contains a mandatory digit-or-comma run, every script capture contains one —
stated as a hypothesis reflecting the price regex — and otherwise the
sentinel `价格面议` is returned); the title is never the empty string unless
a JSON-LD object supplies an empty `name` string, which is returned
verbatim. -/
theorem c7_nonempty_amended (d : Doc)
    (hp : ∀ sc ∈ d.scripts, ∀ m ∈ sc.priceMatches, m ≠ [])
    (hn : ∀ j ∈ d.jsonLd, ∀ s, jsonLdName j = some s → s ≠ []) :
    extract_price d ≠ [] ∧ extract_title d ≠ [] :=
  ⟨extract_price_ne_nil d hp, extract_title_ne_nil d hn⟩

/-- C7, witness: the amended theorem applied at the empty document. -/
theorem c7_witness :
    (∀ sc ∈ emptyDoc.scripts, ∀ m ∈ sc.priceMatches, m ≠ []) ∧
    (∀ j ∈ emptyDoc.jsonLd, ∀ s, jsonLdName j = some s → s ≠ []) ∧
    extract_price emptyDoc ≠ [] ∧ extract_title emptyDoc ≠ [] :=
  ⟨by simp [emptyDoc], by simp [emptyDoc],
    c7_nonempty_amended emptyDoc (by simp [emptyDoc]) (by simp [emptyDoc])⟩

/-! ## Claim C1: the mobile fallback -/

/-- C1: when the input URL contains the desktop host and the primary fetch
fails or its document's title extraction yields the sentinel, exactly one
mobile fetch of the host-substituted URL is performed (the trace is precisely
`[url, mobile_url]`); if the mobile document exists and its title is
non-sentinel, the assembled record is built from the mobile document and its
`url` field is the mobile URL; otherwise the primary outcome is kept (the
fetch-failure error, or the record built from the primary document and
original URL). -/
theorem c1_mobile_fallback (w : World) (url : Str)
    (hv : validate_url url = true)
    (hd : containsSub desktopHost url = true)
    (hprim : w.fetch url = none ∨
      ∃ d, w.fetch url = some d ∧ extract_title d = sentinelTitle)
    (hex : w.assembleExc = none) :
    (scrape_product w url).2 = [url, replaceSub desktopHost mobileHost url] ∧
    (∀ md, w.fetch (replaceSub desktopHost mobileHost url) = some md →
      extract_title md ≠ sentinelTitle →
      (scrape_product w url).1 =
        .ok (mkProductInfo w md (replaceSub desktopHost mobileHost url)) ∧
      (mkProductInfo w md (replaceSub desktopHost mobileHost url)).url =
        replaceSub desktopHost mobileHost url) ∧
    ((w.fetch (replaceSub desktopHost mobileHost url) = none ∨
      ∃ md, w.fetch (replaceSub desktopHost mobileHost url) = some md ∧
        extract_title md = sentinelTitle) →
      (scrape_product w url).1 =
        match w.fetch url with
        | none => .err errNoContent
        | some d => .ok (mkProductInfo w d url)) := by
  have hstm : (match w.fetch url with
      | none => containsSub desktopHost url
      | some s => containsSub desktopHost url && decide (extract_title s = sentinelTitle)) = true := by
    rcases hprim with hnone | ⟨d0, hd0, ht0⟩
    · rw [hnone]; exact hd
    · rw [hd0]; simp [hd, ht0]
  have hsp : scrape_product w url =
      (match w.fetch (replaceSub desktopHost mobileHost url) with
       | some ms =>
         if decide (extract_title ms ≠ sentinelTitle) = true then
           (finishScrape w (some ms) (replaceSub desktopHost mobileHost url),
             [url, replaceSub desktopHost mobileHost url])
         else (finishScrape w (w.fetch url) url, [url, replaceSub desktopHost mobileHost url])
       | none => (finishScrape w (w.fetch url) url, [url, replaceSub desktopHost mobileHost url])) := by
    unfold scrape_product
    rw [if_pos hv]
    dsimp only
    rw [hstm]
    rw [if_pos rfl]
  rw [hsp]
  cases hm : w.fetch (replaceSub desktopHost mobileHost url) with
  | none =>
    refine ⟨rfl, ?_, ?_⟩
    · intro md hmd; exact absurd hmd (by simp)
    · intro _
      dsimp only
      rcases hprim with hnone | ⟨d0, hd0, _⟩
      · rw [hnone]; simp [finishScrape]
      · rw [hd0]; simp [finishScrape, hex]
  | some ms =>
    dsimp only
    by_cases hms : extract_title ms ≠ sentinelTitle
    · rw [if_pos (decide_eq_true hms)]
      refine ⟨rfl, ?_, ?_⟩
      · intro md hmd _
        have hmsmd : ms = md := Option.some.inj hmd
        subst hmsmd
        exact ⟨by simp [finishScrape, hex], rfl⟩
      · intro hcon
        exfalso
        rcases hcon with hcon | ⟨md, hmd, htd⟩
        · exact Option.noConfusion hcon
        · have hmsmd : ms = md := Option.some.inj hmd
          subst hmsmd
          exact hms htd
    · rw [if_neg (by simpa using hms)]
      refine ⟨rfl, ?_, ?_⟩
      · intro md hmd hne
        have hmsmd : ms = md := Option.some.inj hmd
        subst hmsmd
        exact absurd hne hms
      · intro _
        dsimp only
        rcases hprim with hnone | ⟨d0, hd0, _⟩
        · rw [hnone]; simp [finishScrape]
        · rw [hd0]; simp [finishScrape, hex]

/-- The desktop URL of the C1 witness. -/
def dUrlC1 : Str := "https://detail.1688.com/offer/1.html".data

/-- A document whose selector phase yields a real title. -/
def titledDocC1 : Doc :=
  { emptyDoc with titleSelectorTexts := [["优质硅胶手机壳批发".data]] }

/-- A world where the desktop fetch fails and the mobile fetch succeeds with
a titled document. -/
def wC1 : World :=
  { fetch := fun u => if u == "https://m.1688.com/offer/1.html".data then some titledDocC1 else none,
    now := "2026-10-12 00:00:00".data, assembleExc := none, outerExc := none }

/-- C1, witness: the Scenario C instance — desktop fetch fails, the single
mobile attempt succeeds with a non-sentinel title, and the record adopts the
mobile URL. -/
theorem c1_witness :
    (validate_url dUrlC1 = true ∧ containsSub desktopHost dUrlC1 = true ∧
      wC1.fetch dUrlC1 = none ∧ wC1.assembleExc = none) ∧
    ((scrape_product wC1 dUrlC1).2 = [dUrlC1, replaceSub desktopHost mobileHost dUrlC1] ∧
    (∀ md, wC1.fetch (replaceSub desktopHost mobileHost dUrlC1) = some md →
      extract_title md ≠ sentinelTitle →
      (scrape_product wC1 dUrlC1).1 =
        .ok (mkProductInfo wC1 md (replaceSub desktopHost mobileHost dUrlC1)) ∧
      (mkProductInfo wC1 md (replaceSub desktopHost mobileHost dUrlC1)).url =
        replaceSub desktopHost mobileHost dUrlC1) ∧
    ((wC1.fetch (replaceSub desktopHost mobileHost dUrlC1) = none ∨
      ∃ md, wC1.fetch (replaceSub desktopHost mobileHost dUrlC1) = some md ∧
        extract_title md = sentinelTitle) →
      (scrape_product wC1 dUrlC1).1 =
        match wC1.fetch dUrlC1 with
        | none => .err errNoContent
        | some d => .ok (mkProductInfo wC1 d dUrlC1))) :=
  ⟨⟨by decide, by decide, rfl, rfl⟩,
    c1_mobile_fallback wC1 dUrlC1 (by decide) (by decide) (Or.inl rfl) rfl⟩

/-! ## Claim C2: description cleaning

The tag-freeness argument goes through the invariant `ltOk`: every `<` is
immediately followed by `>` or has no `>` anywhere after it.  `removeTags`
establishes the invariant, every later cleaning step preserves it, and the
invariant excludes any `<[^>]+>` substring. -/

/-- The raw-HTML-tag predicate of the claim: the string contains a substring
`<s>` with `s` non-empty and free of `>` (exactly what `<[^>]+>` matches). -/
def hasHtmlTag (l : Str) : Prop :=
  ∃ s : Str, s ≠ [] ∧ '>' ∉ s ∧ ('<' :: s ++ ['>']) <:+: l

/-- Invariant: each `<` is immediately closed or never closed. -/
def ltOk : Str → Bool
  | [] => true
  | c :: rest =>
    (if c = '<' then (decide (rest.head? = some '>') || !(decide ('>' ∈ rest))) else true) &&
      ltOk rest

theorem ltOk_tail {c : Char} {l : Str} (h : ltOk (c :: l) = true) : ltOk l = true := by
  rw [ltOk, Bool.and_eq_true] at h
  exact h.2

theorem ltOk_cond {l : Str} (h : ltOk ('<' :: l) = true) :
    l.head? = some '>' ∨ '>' ∉ l := by
  rw [ltOk, Bool.and_eq_true] at h
  have h1 := h.1
  rw [if_pos rfl, Bool.or_eq_true] at h1
  rcases h1 with h1 | h1
  · exact Or.inl (of_decide_eq_true h1)
  · right
    intro hm
    rw [Bool.not_eq_true', decide_eq_false_iff_not] at h1
    exact h1 hm

theorem ltOk_cons_of {c : Char} {l : Str} (hl : ltOk l = true)
    (hc : c = '<' → l.head? = some '>' ∨ '>' ∉ l) : ltOk (c :: l) = true := by
  rw [ltOk, Bool.and_eq_true]
  refine ⟨?_, hl⟩
  by_cases h : c = '<'
  · rw [if_pos h, Bool.or_eq_true]
    rcases hc h with h1 | h1
    · exact Or.inl (decide_eq_true h1)
    · right
      rw [Bool.not_eq_true', decide_eq_false_iff_not]
      exact h1
  · rw [if_neg h]

theorem ltOk_of_gt_not_mem : ∀ {l : Str}, '>' ∉ l → ltOk l = true := by
  intro l
  induction l with
  | nil => intro _; rfl
  | cons c rest ih =>
    intro h
    refine ltOk_cons_of (ih fun hm => h (List.mem_cons_of_mem _ hm)) fun _ => ?_
    exact Or.inr fun hm => h (List.mem_cons_of_mem _ hm)

theorem ltOk_of_lt_not_mem : ∀ {l : Str}, '<' ∉ l → ltOk l = true := by
  intro l
  induction l with
  | nil => intro _; rfl
  | cons c rest ih =>
    intro h
    refine ltOk_cons_of (ih fun hm => h (List.mem_cons_of_mem _ hm)) fun hc => ?_
    exact absurd (hc ▸ List.mem_cons_self c rest) h

theorem ltOk_pre : ∀ {l' l : Str}, l' <+: l → ltOk l = true → ltOk l' = true := by
  intro l'
  induction l' with
  | nil => intro _ _ _; rfl
  | cons c t ih =>
    intro l hpre hl
    cases l with
    | nil => exact absurd (List.prefix_nil.1 hpre) (by simp)
    | cons b l2 =>
      obtain ⟨rfl, ht⟩ := List.cons_prefix_cons.1 hpre
      refine ltOk_cons_of (ih ht (ltOk_tail hl)) fun hc => ?_
      subst hc
      rcases ltOk_cond hl with h1 | h1
      · cases t with
        | nil => exact Or.inr (by simp)
        | cons x ts =>
          cases l2 with
          | nil => simp at h1
          | cons y l2' =>
            have hy : y = '>' := by simpa using h1
            obtain ⟨rfl, _⟩ := List.cons_prefix_cons.1 ht
            left
            simp [hy]
      · exact Or.inr fun hm => h1 (ht.subset hm)

theorem ltOk_suffix : ∀ {l' l : Str}, l' <:+ l → ltOk l = true → ltOk l' = true := by
  intro l' l
  induction l with
  | nil =>
    intro hsuf h
    rw [List.suffix_nil.1 hsuf]
    exact h
  | cons c rest ih =>
    intro hsuf h
    rcases List.suffix_cons_iff.1 hsuf with rfl | hsuf
    · exact h
    · exact ih hsuf (ltOk_tail h)

theorem ltOk_sub {l' l : Str} (hinf : l' <:+: l) (h : ltOk l = true) :
    ltOk l' = true := by
  obtain ⟨t, hpre, hsuf⟩ := List.infix_iff_prefix_suffix.1 hinf
  exact ltOk_pre hpre (ltOk_suffix hsuf h)

theorem ltOk_no_tag : ∀ {l : Str}, ltOk l = true → ¬ hasHtmlTag l := by
  intro l
  induction l with
  | nil =>
    intro _ ⟨s, hs, _, hinf⟩
    have := hinf.sublist.length_le
    simp only [List.length_append, List.length_cons, List.length_nil] at this
    omega
  | cons c rest ih =>
    intro h ⟨s, hs, hgt, hinf⟩
    rcases List.infix_cons_iff.1 hinf with hpre | hinf2
    · obtain ⟨rfl, hpre2⟩ := List.cons_prefix_cons.1 hpre
      rcases ltOk_cond h with h1 | h1
      · cases s with
        | nil => exact hs rfl
        | cons a s' =>
          cases rest with
          | nil => simp at h1
          | cons y r2 =>
            have hy : y = '>' := by simpa using h1
            have hpre3 : a :: (s' ++ ['>']) <+: y :: r2 := by simpa using hpre2
            obtain ⟨rfl, _⟩ := List.cons_prefix_cons.1 hpre3
            exact hgt (by simp [hy])
      · apply h1
        exact hpre2.subset (by simp)
    · exact ih (ltOk_tail h) ⟨s, hs, hgt, hinf2⟩

theorem rtGo_ltOk (l : Str) :
    ∀ st : RTState, (∀ buf, st = RTState.inside buf → '>' ∉ buf) →
      ltOk (rtGo st l) = true := by
  induction l with
  | nil =>
    intro st hbuf
    cases st with
    | out => rfl
    | lt => decide
    | inside buf =>
      have hb := hbuf buf rfl
      refine ltOk_cons_of (ltOk_of_gt_not_mem ?_) fun _ => Or.inr ?_
      · intro hm
        exact hb (List.mem_reverse.1 hm)
      · intro hm
        exact hb (List.mem_reverse.1 hm)
  | cons c rest ih =>
    intro st hbuf
    cases st with
    | out =>
      rw [rtGo]
      by_cases hc : (c == '<') = true
      · rw [if_pos hc]
        exact ih .lt (by intro buf h; exact absurd h (by simp))
      · rw [if_neg hc]
        refine ltOk_cons_of (ih .out (by intro buf h; exact absurd h (by simp))) fun h => ?_
        exact absurd (by simp [h] : (c == '<') = true) hc
    | lt =>
      rw [rtGo]
      by_cases hc : (c == '>') = true
      · rw [if_pos hc]
        refine ltOk_cons_of ?_ fun _ => Or.inl rfl
        refine ltOk_cons_of (ih .out (by intro buf h; exact absurd h (by simp))) fun h => ?_
        exact absurd h (by decide)
      · rw [if_neg hc]
        refine ih (.inside [c]) ?_
        intro buf h
        rw [show buf = [c] from (RTState.inside.inj h).symm]
        intro hm
        rcases List.mem_singleton.1 hm with rfl
        exact hc (by simp)
    | inside buf =>
      rw [rtGo]
      by_cases hc : (c == '>') = true
      · rw [if_pos hc]
        exact ih .out (by intro b h; exact absurd h (by simp))
      · rw [if_neg hc]
        refine ih (.inside (c :: buf)) ?_
        intro b h
        rw [show b = c :: buf from (RTState.inside.inj h).symm]
        intro hm
        rcases List.mem_cons.1 hm with rfl | hm
        · exact hc (by simp)
        · exact hbuf buf rfl hm

theorem removeTags_ltOk (l : Str) : ltOk (removeTags l) = true :=
  rtGo_ltOk l .out (by intro buf h; exact absurd h (by simp))

theorem cwGo_mem : ∀ (l : Str) (b : Bool) (a : Char), a ∈ cwGo b l → a ∈ l ∨ a = ' ' := by
  intro l
  induction l with
  | nil => intro b a h; simp [cwGo] at h
  | cons c rest ih =>
    intro b a h
    rw [cwGo] at h
    split at h
    · split at h
      · rcases ih _ _ h with h | h
        · exact Or.inl (List.mem_cons_of_mem _ h)
        · exact Or.inr h
      · rcases List.mem_cons.1 h with rfl | h
        · exact Or.inr rfl
        · rcases ih _ _ h with h | h
          · exact Or.inl (List.mem_cons_of_mem _ h)
          · exact Or.inr h
    · rcases List.mem_cons.1 h with rfl | h
      · exact Or.inl (List.mem_cons_self _ _)
      · rcases ih _ _ h with h | h
        · exact Or.inl (List.mem_cons_of_mem _ h)
        · exact Or.inr h

theorem cwGo_ltOk : ∀ (l : Str) (b : Bool), ltOk l = true → ltOk (cwGo b l) = true := by
  intro l
  induction l with
  | nil => intro b _; cases b <;> rfl
  | cons c rest ih =>
    intro b h
    rw [cwGo]
    by_cases hsp : isPySpace c = true
    · rw [if_pos hsp]
      split
      · exact ih true (ltOk_tail h)
      · refine ltOk_cons_of (ih true (ltOk_tail h)) fun hlt => ?_
        exact absurd hlt (by decide)
    · rw [if_neg hsp]
      refine ltOk_cons_of (ih false (ltOk_tail h)) fun hlt => ?_
      subst hlt
      rcases ltOk_cond h with h1 | h1
      · cases rest with
        | nil => simp at h1
        | cons y r2 =>
          have hy : y = '>' := by simpa using h1
          left
          rw [cwGo]
          rw [if_neg (by rw [hy]; decide)]
          simp [hy]
      · right
        intro hm
        rcases cwGo_mem _ _ _ hm with hm | hm
        · exact h1 hm
        · exact absurd hm (by decide)

theorem map_nbsp_ltOk : ∀ l : Str, ltOk l = true →
    ltOk (l.map fun c => if c = Char.ofNat 0xa0 then ' ' else c) = true := by
  intro l
  induction l with
  | nil => intro _; rfl
  | cons c rest ih =>
    intro h
    rw [List.map_cons]
    refine ltOk_cons_of (ih (ltOk_tail h)) fun hlt => ?_
    have hc : c = '<' := by
      by_cases hn : c = Char.ofNat 0xa0
      · rw [if_pos hn] at hlt; exact absurd hlt (by decide)
      · rwa [if_neg hn] at hlt
    subst hc
    rcases ltOk_cond h with h1 | h1
    · cases rest with
      | nil => simp at h1
      | cons y r2 =>
        have hy : y = '>' := by simpa using h1
        left
        rw [List.map_cons, hy]
        simp
    · right
      intro hm
      obtain ⟨x, hx, hfx⟩ := List.exists_of_mem_map hm
      have hx2 : x = '>' := by
        by_cases hn : x = Char.ofNat 0xa0
        · rw [if_pos hn] at hfx; exact absurd hfx (by decide)
        · rwa [if_neg hn] at hfx
      exact h1 (hx2 ▸ hx)

theorem filter_200b_ltOk : ∀ l : Str, ltOk l = true →
    ltOk (l.filter fun c => !(c = Char.ofNat 0x200b : Bool)) = true := by
  intro l
  induction l with
  | nil => intro _; rfl
  | cons c rest ih =>
    intro h
    rw [List.filter_cons]
    split
    · refine ltOk_cons_of (ih (ltOk_tail h)) fun hlt => ?_
      subst hlt
      rcases ltOk_cond h with h1 | h1
      · cases rest with
        | nil => simp at h1
        | cons y r2 =>
          have hy : y = '>' := by simpa using h1
          left
          rw [List.filter_cons, hy]
          simp only [if_pos (by decide : (!( ('>' : Char) = Char.ofNat 0x200b : Bool)) = true)]
          simp
      · right
        intro hm
        exact h1 (List.mem_of_mem_filter hm)
    · exact ih (ltOk_tail h)

theorem ltOk_append_no_angle : ∀ (a b : Str), ltOk a = true →
    (∀ c ∈ b, c ≠ '<' ∧ c ≠ '>') → ltOk (a ++ b) = true := by
  intro a
  induction a with
  | nil =>
    intro b _ hb
    rw [List.nil_append]
    exact ltOk_of_lt_not_mem fun hm => (hb _ hm).1 rfl
  | cons c a' ih =>
    intro b h hb
    rw [List.cons_append]
    refine ltOk_cons_of (ih b (ltOk_tail h) hb) fun hlt => ?_
    subst hlt
    rcases ltOk_cond h with h1 | h1
    · cases a' with
      | nil => simp at h1
      | cons y r2 =>
        have hy : y = '>' := by simpa using h1
        left
        rw [List.cons_append]
        simp [hy]
    · right
      intro hm
      rcases List.mem_append.1 hm with hm | hm
      · exact h1 hm
      · exact (hb _ hm).2 rfl

theorem pyStrip_sub (l : Str) : pyStrip l <:+: l := by
  unfold pyStrip
  have hsuf : l.dropWhile isPySpace <:+ l := List.dropWhile_suffix _
  have hpre : ((l.dropWhile isPySpace).reverse.dropWhile isPySpace).reverse <+:
      l.dropWhile isPySpace := by
    have h0 : (l.dropWhile isPySpace).reverse.dropWhile isPySpace <:+
        (l.dropWhile isPySpace).reverse := List.dropWhile_suffix _
    have h1 := List.reverse_prefix.2 h0
    rwa [List.reverse_reverse] at h1
  exact List.infix_iff_prefix_suffix.2 ⟨l.dropWhile isPySpace, hpre, hsuf⟩

theorem clean_description_ltOk (s : Str) : ltOk (clean_description s) = true := by
  unfold clean_description
  split
  · rfl
  · have h1 : ltOk (removeTags s) = true := removeTags_ltOk s
    have h2 : ltOk (collapseWs (removeTags s)) = true := cwGo_ltOk _ false h1
    have h3 : ltOk (pyStrip (collapseWs (removeTags s))) = true :=
      ltOk_sub (pyStrip_sub _) h2
    have h4 := map_nbsp_ltOk _ h3
    have h5 := filter_200b_ltOk _ h4
    dsimp only
    split
    · refine ltOk_append_no_angle _ _ (ltOk_pre ( List.take_prefix _ _) h5) ?_
      decide
    · exact h5

/-- Five distinct product-feature texts of 161 characters each. -/
def bigFeatC2 (c : Char) : Str := List.replicate 160 'a' ++ [c]

/-- A document whose only readable content is five long feature bullets. -/
def cexDocC2 : Doc :=
  { emptyDoc with featureSelectorTexts :=
      [[bigFeatC2 '1', bigFeatC2 '2', bigFeatC2 '3', bigFeatC2 '4', bigFeatC2 '5']] }

set_option maxRecDepth 8000 in
/-- C2, counterexample: the feature-synthesis fallback of
`extract_description` concatenates up to five features of up to 199
characters each without passing through `clean_description`, so the returned
description can exceed 803 characters (here: 814): the claim's "the
description has length at most 803 for every document" is false. -/
theorem c2_counterexample :
    (extract_description cexDocC2).length = 814 ∧
    ¬ ((extract_description cexDocC2).length ≤ 803) := by
  constructor
  · decide
  · decide

/-- C2, amended: every description that passes through the cleaning step —
i.e. every value `clean_description` returns, which covers the selector,
meta, JSON-LD and script branches of `extract_description` — has length at
most 803 (800 plus the three-character ellipsis marker) and contains no raw
`<...>` HTML tag.  The feature-synthesis and title-synthesis fallbacks
bypass the cleaning step and are not subject to the bound. -/
theorem c2_clean_description_amended (s : Str) :
    (clean_description s).length ≤ 803 ∧ ¬ hasHtmlTag (clean_description s) := by
  constructor
  · unfold clean_description
    split
    · simp
    · dsimp only
      split
      · rw [List.length_append]
        have := List.length_take_le 800
          (((pyStrip (collapseWs (removeTags s))).map fun c =>
            if c = Char.ofNat 0xa0 then ' ' else c).filter
            fun c => !(c = Char.ofNat 0x200b : Bool))
        simp only [List.length_cons, List.length_nil]
        omega
      · next hlen =>
        simp only [decide_eq_true_eq] at hlen
        omega
  · exact ltOk_no_tag (clean_description_ltOk s)
